import Mathlib

/-!
Verification of the WebRTC signaling core of mathtutor-live.

The server side (the signaling entry point of the server module) keeps a
global `rooms : Map<string, Room>` plus a per-socket `roomKey` field, and
handles the events `join-room`, `offer`, `answer`, `ice-candidate`,
`media-state-change`, `screen-share-started`, `screen-share-stopped`,
`leave-room` and `disconnect`.  The client side (`WebRTCVideoConference`)
keeps a map of remote peers and reacts to `existing-participants`,
`user-joined`, `offer`, `answer`, `ice-candidate` and the screen-share effect.

JavaScript `Map`s are modelled as association lists with the JS semantics:
`set` replaces in place when the key is present and appends otherwise,
`get` returns the first (unique) entry, `delete` removes the entry.
Socket.io emits are modelled as explicit output messages; a room broadcast
`socket.to(roomKey).emit(...)` carries the room key and the excluded sender,
and its recipient set is derived from the room's participant map (join-room
and leave keep the io-room membership and the participant map in step).
-/

namespace MathTutor

/-- JS `Map.get`: first value stored under the key. -/
def mapFind? {α : Type} (k : String) : List (String × α) → Option α
  | [] => none
  | (k', v) :: rest => if k' = k then some v else mapFind? k rest

/-- JS `Map.set`: replace in place when the key is present, else append. -/
def mapSet {α : Type} (k : String) (v : α) : List (String × α) → List (String × α)
  | [] => [(k, v)]
  | (k', v') :: rest => if k' = k then (k, v) :: rest else (k', v') :: mapSet k v rest

/-- JS `Map.delete`: remove the entry stored under the key. -/
def mapErase {α : Type} (k : String) : List (String × α) → List (String × α)
  | [] => []
  | (k', v') :: rest => if k' = k then rest else (k', v') :: mapErase k rest

/-- Keys of a JS map. -/
def mapKeys {α : Type} (m : List (String × α)) : List String :=
  m.map Prod.fst

/-- Participant record of the signaling server (interface `Participant`). -/
structure Participant where
  socketId : String
  oderId : Int
  odername : String
  isHost : Bool
  hasVideo : Bool
  hasAudio : Bool
deriving DecidableEq, Repr

/-- Room record of the signaling server (interface `Room`). -/
structure Room where
  sessionId : Int
  participants : List (String × Participant)
deriving DecidableEq, Repr

/-- Server state: the global `rooms` map plus the `(socket as any).roomKey`
field stored on each socket (set on join, never cleared). -/
structure ServerState where
  rooms : List (String × Room)
  socketRoomKey : List (String × String)
deriving DecidableEq, Repr

/-- The empty signaling server state. -/
def ServerState.init : ServerState := ⟨[], []⟩

/-- Roster entry sent in the `existing-participants` reply. -/
structure RosterEntry where
  socketId : String
  oderId : Int
  odername : String
  isHost : Bool
  hasVideo : Bool
  hasAudio : Bool
deriving DecidableEq, Repr

/-- Messages emitted by the server.  Broadcast constructors carry the room key
and the excluded sender of `socket.to(roomKey).emit`; direct constructors
carry the target of `io.to(targetSocketId).emit` or `socket.emit`. -/
inductive SOut where
  | existingParticipants (target : String) (roster : List RosterEntry)
  | userJoined (roomKey : String) (except : String) (sid : String)
      (oderId : Int) (odername : String) (isHost : Bool)
  | userLeft (roomKey : String) (except : String) (sid : String)
  | mediaChanged (roomKey : String) (except : String) (sid : String)
      (hasVideo : Bool) (hasAudio : Bool)
  | screenShare (roomKey : String) (except : String) (sid : String) (isSharing : Bool)
  | offer (target : String) (sender : String) (payload : String)
  | answer (target : String) (sender : String) (payload : String)
  | iceCandidate (target : String) (sender : String) (payload : String)
deriving DecidableEq, Repr

/-- The composite room key `roomSlug-sessionId` built by the join handler. -/
def mkRoomKey (roomSlug : String) (sessionId : Int) : String :=
  roomSlug ++ "-" ++ toString sessionId

/-- The `existing-participants` roster built by the join handler: all entries
of the participant map other than the caller. -/
def rosterOf (parts : List (String × Participant)) (sid : String) : List RosterEntry :=
  (parts.filter (fun e => e.1 ≠ sid)).map (fun e =>
    { socketId := e.1, oderId := e.2.oderId, odername := e.2.odername,
      isHost := e.2.isHost, hasVideo := e.2.hasVideo, hasAudio := e.2.hasAudio })

/-- The `join-room` handler: create the room if absent, insert the caller
with `hasVideo = true, hasAudio = true`, broadcast `user-joined` to the other
members and reply `existing-participants` (the roster minus the caller);
finally record the room key on the socket. -/
def joinRoom (st : ServerState) (sid roomSlug : String) (sessionId oderId : Int)
    (odername : String) (isHost : Bool) : ServerState × List SOut :=
  let roomKey := mkRoomKey roomSlug sessionId
  let rooms1 :=
    if (mapFind? roomKey st.rooms).isSome then st.rooms
    else mapSet roomKey { sessionId := sessionId, participants := [] } st.rooms
  let room := (mapFind? roomKey rooms1).getD { sessionId := sessionId, participants := [] }
  let participant : Participant :=
    { socketId := sid, oderId := oderId, odername := odername, isHost := isHost,
      hasVideo := true, hasAudio := true }
  let room' := { room with participants := mapSet sid participant room.participants }
  ({ rooms := mapSet roomKey room' rooms1,
     socketRoomKey := mapSet sid roomKey st.socketRoomKey },
   [SOut.userJoined roomKey sid sid oderId odername isHost,
    SOut.existingParticipants sid (rosterOf room'.participants sid)])

/-- The `offer` handler: forward to the target tagged with the sender. -/
def handleOffer (st : ServerState) (sid target payload : String) :
    ServerState × List SOut :=
  (st, [SOut.offer target sid payload])

/-- The `answer` handler: forward to the target tagged with the sender. -/
def handleAnswer (st : ServerState) (sid target payload : String) :
    ServerState × List SOut :=
  (st, [SOut.answer target sid payload])

/-- The `ice-candidate` handler: forward to the target tagged with the sender. -/
def handleIceCandidate (st : ServerState) (sid target payload : String) :
    ServerState × List SOut :=
  (st, [SOut.iceCandidate target sid payload])

/-- The `media-state-change` handler: no-op unless the socket has a room key,
the room exists and the participant is registered; otherwise update the two
flags and broadcast `participant-media-changed` to the rest of the room. -/
def mediaStateChange (st : ServerState) (sid : String) (hasVideo hasAudio : Bool) :
    ServerState × List SOut :=
  match mapFind? sid st.socketRoomKey with
  | none => (st, [])
  | some roomKey =>
    match mapFind? roomKey st.rooms with
    | none => (st, [])
    | some room =>
      match mapFind? sid room.participants with
      | none => (st, [])
      | some participant =>
        let participant' := { participant with hasVideo := hasVideo, hasAudio := hasAudio }
        let room' := { room with participants := mapSet sid participant' room.participants }
        ({ st with rooms := mapSet roomKey room' st.rooms },
         [SOut.mediaChanged roomKey sid sid hasVideo hasAudio])

/-- The `screen-share-started` handler: broadcast only, no registry change. -/
def screenShareStarted (st : ServerState) (sid : String) : ServerState × List SOut :=
  match mapFind? sid st.socketRoomKey with
  | none => (st, [])
  | some roomKey => (st, [SOut.screenShare roomKey sid sid true])

/-- The `screen-share-stopped` handler: broadcast only, no registry change. -/
def screenShareStopped (st : ServerState) (sid : String) : ServerState × List SOut :=
  match mapFind? sid st.socketRoomKey with
  | none => (st, [])
  | some roomKey => (st, [SOut.screenShare roomKey sid sid false])

/-- `handleDisconnect` (also invoked by the `leave-room` handler): look up the
socket's stored room key (which is never cleared), remove the participant,
broadcast `user-left`, and delete the room when it became empty. -/
def handleDisconnect (st : ServerState) (sid : String) : ServerState × List SOut :=
  match mapFind? sid st.socketRoomKey with
  | none => (st, [])
  | some roomKey =>
    match mapFind? roomKey st.rooms with
    | none => (st, [])
    | some room =>
      let parts := mapErase sid room.participants
      let rooms' :=
        if parts.length = 0 then mapErase roomKey st.rooms
        else mapSet roomKey { room with participants := parts } st.rooms
      ({ st with rooms := rooms' }, [SOut.userLeft roomKey sid sid])

/-- One inbound signaling event, as dispatched by the socket handlers. -/
inductive Event where
  | join (sid roomSlug : String) (sessionId oderId : Int) (odername : String) (isHost : Bool)
  | leave (sid : String)
  | disconnect (sid : String)
  | mediaStateChange (sid : String) (hasVideo hasAudio : Bool)
  | offer (sid target payload : String)
  | answer (sid target payload : String)
  | iceCandidate (sid target payload : String)
  | screenShareStarted (sid : String)
  | screenShareStopped (sid : String)
deriving DecidableEq, Repr

/-- Dispatch one event to its handler. -/
def step (st : ServerState) : Event → ServerState × List SOut
  | .join sid slug sess oid nm ih => joinRoom st sid slug sess oid nm ih
  | .leave sid => handleDisconnect st sid
  | .disconnect sid => handleDisconnect st sid
  | .mediaStateChange sid v a => mediaStateChange st sid v a
  | .offer sid t p => handleOffer st sid t p
  | .answer sid t p => handleAnswer st sid t p
  | .iceCandidate sid t p => handleIceCandidate st sid t p
  | .screenShareStarted sid => screenShareStarted st sid
  | .screenShareStopped sid => screenShareStopped st sid

/-- Run a sequence of events from a given state. -/
def runFrom (st : ServerState) (es : List Event) : ServerState :=
  es.foldl (fun st e => (step st e).1) st

/-- Run a sequence of events from the empty server state. -/
def run (es : List Event) : ServerState :=
  runFrom ServerState.init es

/-- Participant ids of a room (empty when the room is absent). -/
def pids (st : ServerState) (roomKey : String) : List String :=
  mapKeys (((mapFind? roomKey st.rooms).getD { sessionId := 0, participants := [] }).participants)

/-- Recipient set of a room broadcast `socket.to(roomKey).emit`: every
participant of the room except the sender. -/
def broadcastTargets (st : ServerState) (roomKey except : String) : List String :=
  (pids st roomKey).filter (fun x => x ≠ except)

/-- The roster carried by the first `existing-participants` message of an
output list. -/
def existingReply : List SOut → List RosterEntry
  | [] => []
  | .existingParticipants _ roster :: _ => roster
  | _ :: rest => existingReply rest

/-- Delivery of a direct emit `io.to(target).emit(m)`: the message reaches the
target exactly when the target is still connected; otherwise it is dropped. -/
def emitTo (connected : List String) (target : String) (m : SOut) :
    List (String × SOut) :=
  if target ∈ connected then [(target, m)] else []

/-- One operation on a single signaling room: the sequences quantified over by
the roster-correctness property (`join`/`leave`/`disconnect` on a room). -/
inductive ROp where
  | join (sid : String) (oderId : Int) (odername : String) (isHost : Bool)
  | leave (sid : String)
  | disconnect (sid : String)
deriving DecidableEq, Repr

/-- Interpret a room operation as a signaling event of the fixed room. -/
def ROp.toEvent (roomSlug : String) (sessionId : Int) : ROp → Event
  | .join sid oid nm ih => .join sid roomSlug sessionId oid nm ih
  | .leave sid => .leave sid
  | .disconnect sid => .disconnect sid

/-- Run a sequence of single-room operations from the empty server state. -/
def runRoom (roomSlug : String) (sessionId : Int) (ops : List ROp) : ServerState :=
  run (ops.map (ROp.toEvent roomSlug sessionId))

/-- Specification-side roster predicate: a connection is active after a
sequence of room operations when its last membership-changing operation is a
join (it has joined and not yet left or disconnected). -/
def activeAfter (sid : String) (ops : List ROp) : Bool :=
  ops.foldl (fun b op =>
    match op with
    | .join s _ _ _ => if s = sid then true else b
    | .leave s => if s = sid then false else b
    | .disconnect s => if s = sid then false else b) false

/-! ### Client model (`WebRTCVideoConference`) -/

/-- A media track (kind is `"video"` or `"audio"`). -/
structure Track where
  kind : String
  id : String
deriving DecidableEq, Repr

/-- The `RTCPeerConnection.signalingState` values the component drives. -/
inductive SignalingState where
  | stable
  | haveLocalOffer
  | haveRemoteOffer
deriving DecidableEq, Repr

/-- An `RTCRtpSender`, as created by `addTrack` and updated by `replaceTrack`. -/
structure RTCSender where
  track : Option Track
deriving DecidableEq, Repr

/-- An `RTCPeerConnection`: its signaling state, its senders, the applied
remote description and the ICE candidates added so far. -/
structure PeerConnection where
  signaling : SignalingState
  senders : List RTCSender
  remoteDescription : Option String
  remoteCandidates : List String
deriving DecidableEq, Repr

/-- Remote peer entry of the client (`interface RemotePeer`); `connection` is
`none` for the placeholder entries created by the `user-joined` handler. -/
structure RemotePeer where
  socketId : String
  oderId : Int
  odername : String
  isHost : Bool
  hasVideo : Bool
  hasAudio : Bool
  connection : Option PeerConnection
  stream : Option String
deriving DecidableEq, Repr

/-- Client component state: the `peersRef` map, the local camera/microphone
stream and the screen-capture stream (each a list of tracks when present). -/
structure ClientState where
  peers : List (String × RemotePeer)
  localStream : Option (List Track)
  screenStream : Option (List Track)
deriving DecidableEq, Repr

/-- Messages the client emits on the socket. -/
inductive COut where
  | offerMsg (target : String) (sdp : String)
  | answerMsg (target : String) (sdp : String)
  | iceMsg (target : String) (candidate : String)
  | mediaStateMsg (hasVideo hasAudio : Bool)
  | shareStartedMsg
  | shareStoppedMsg
deriving DecidableEq, Repr

/-- A fresh client right after connecting and acquiring the local stream. -/
def newClient (stream : List Track) : ClientState :=
  { peers := [], localStream := some stream, screenStream := none }

/-- `createPeerConnection`: a fresh connection with one sender per local
track (`addTrack`), in signaling state `stable`. -/
def createPeerConnection (stream : List Track) : PeerConnection :=
  { signaling := .stable,
    senders := stream.map (fun t => { track := some t }),
    remoteDescription := none,
    remoteCandidates := [] }

/-- `initiateCall`: create the connection, store the peer entry, then
`createOffer`/`setLocalDescription` (signaling state `have-local-offer`) and
emit the `offer` message to the target. -/
def initiateCall (cs : ClientState) (target : String) (oid : Int) (nm : String)
    (ih : Bool) (stream : List Track) : ClientState × List COut :=
  let pc := { createPeerConnection stream with signaling := .haveLocalOffer }
  let peer : RemotePeer :=
    { socketId := target, oderId := oid, odername := nm, isHost := ih,
      hasVideo := true, hasAudio := true, connection := some pc, stream := none }
  ({ cs with peers := mapSet target peer cs.peers }, [COut.offerMsg target "sdp-offer"])

/-- The `existing-participants` handler: for each roster entry in order, when
the local stream is available, initiate a call to it. -/
def onExistingParticipants (cs : ClientState) : List RosterEntry → ClientState × List COut
  | [] => (cs, [])
  | p :: rest =>
    match cs.localStream with
    | some stream =>
      let r := initiateCall cs p.socketId p.oderId p.odername p.isHost stream
      let r' := onExistingParticipants r.1 rest
      (r'.1, r.2 ++ r'.2)
    | none => onExistingParticipants cs rest

/-- The `user-joined` handler: record a placeholder peer entry (the connection
is established when that peer sends its offer); no message is emitted. -/
def onUserJoined (cs : ClientState) (sid : String) (oid : Int) (nm : String)
    (ih : Bool) : ClientState × List COut :=
  let peer : RemotePeer :=
    { socketId := sid, oderId := oid, odername := nm, isHost := ih,
      hasVideo := true, hasAudio := true, connection := none, stream := none }
  ({ cs with peers := mapSet sid peer cs.peers }, [])

/-- The client `offer` handler: requires the local stream and a known peer
entry; builds the connection, applies the remote offer, creates and applies
the answer (signaling state back to `stable`) and emits the `answer`. -/
def onOffer (cs : ClientState) (sender sdp : String) : ClientState × List COut :=
  match cs.localStream with
  | none => (cs, [])
  | some stream =>
    match mapFind? sender cs.peers with
    | none => (cs, [])
    | some peer =>
      let pc := { createPeerConnection stream with
                    remoteDescription := some sdp, signaling := .stable }
      ({ cs with peers := mapSet sender { peer with connection := some pc } cs.peers },
       [COut.answerMsg sender "sdp-answer"])

/-- The client `answer` handler: when the peer's connection exists, apply the
remote answer (signaling state back to `stable`); otherwise do nothing. -/
def onAnswer (cs : ClientState) (sender sdp : String) : ClientState × List COut :=
  match mapFind? sender cs.peers with
  | none => (cs, [])
  | some peer =>
    match peer.connection with
    | none => (cs, [])
    | some pc =>
      let pc' := { pc with remoteDescription := some sdp, signaling := .stable }
      ({ cs with peers := mapSet sender { peer with connection := some pc' } cs.peers }, [])

/-- The client `ice-candidate` handler: when the peer's connection exists the
candidate is added to it (errors are caught and logged); when the peer entry
or its connection is absent the handler does nothing — the candidate is
dropped, not buffered. -/
def onIceCandidate (cs : ClientState) (sender candidate : String) :
    ClientState × List COut :=
  match mapFind? sender cs.peers with
  | none => (cs, [])
  | some peer =>
    match peer.connection with
    | none => (cs, [])
    | some pc =>
      let pc' := { pc with remoteCandidates := pc.remoteCandidates ++ [candidate] }
      ({ cs with peers := mapSet sender { peer with connection := some pc' } cs.peers }, [])

/-- First video track of a stream (`stream.getVideoTracks()[0]`). -/
def firstVideoTrack (ts : List Track) : Option Track :=
  ts.find? (fun t => t.kind = "video")

/-- Whether a sender currently carries a video track. -/
def isVideoSender (s : RTCSender) : Bool :=
  s.track.map Track.kind = some "video"

/-- Replace the track of the first video sender (`getSenders().find(...)` then
`sender.replaceTrack(track)`); the other senders are untouched. -/
def replaceFirstVideo (vt : Track) : List RTCSender → List RTCSender
  | [] => []
  | s :: rest =>
    if isVideoSender s then { track := some vt } :: rest
    else s :: replaceFirstVideo vt rest

/-- The per-peer body of the screen-share track swap: when the peer has a
connection with a video sender and the replacement track exists, replace the
track in place; nothing else of the connection is touched. -/
def swapVideoTrack (vt? : Option Track) (p : RemotePeer) : RemotePeer :=
  match p.connection with
  | none => p
  | some pc =>
    match vt? with
    | none => p
    | some vt =>
      if (pc.senders.find? isVideoSender).isSome then
        { p with connection := some { pc with senders := replaceFirstVideo vt pc.senders } }
      else p

/-- The screen-share start effect: store the screen stream, emit
`screen-share-started`, and replace the outgoing video track on every peer
connection with the screen capture's video track. -/
def startScreenShare (cs : ClientState) (screen : List Track) :
    ClientState × List COut :=
  let vt? := firstVideoTrack screen
  ({ cs with screenStream := some screen,
             peers := cs.peers.map (fun e => (e.1, swapVideoTrack vt? e.2)) },
   [COut.shareStartedMsg])

/-- The screen-share stop effect: drop the screen stream, emit
`screen-share-stopped`, and restore the camera video track on every peer
connection when the local stream is available. -/
def stopScreenShare (cs : ClientState) : ClientState × List COut :=
  let peers' :=
    match cs.localStream with
    | none => cs.peers
    | some stream => cs.peers.map (fun e => (e.1, swapVideoTrack (firstVideoTrack stream) e.2))
  ({ cs with screenStream := none, peers := peers' }, [COut.shareStoppedMsg])

/-! ### Composed world: server plus clients, for the offer-glare property -/

/-- A join of the composed system: connection `sid` joins the room
`roomSlug-sessionId` (connection ids are unique per connect). -/
structure JoinOp where
  sid : String
  roomSlug : String
  sessionId : Int
  oderId : Int
  odername : String
  isHost : Bool
deriving DecidableEq, Repr

/-- Room key targeted by a join. -/
def JoinOp.key (jp : JoinOp) : String := mkRoomKey jp.roomSlug jp.sessionId

/-- Tracks every fresh client acquires before emitting `join-room`. -/
def camTracks : List Track := [⟨"audio", "mic0"⟩, ⟨"video", "cam0"⟩]

/-- Composed state: the server, one client per connection, and the log of
`offer` messages sent so far as (sender, target) pairs. -/
structure World where
  server : ServerState
  clients : List (String × ClientState)
  offers : List (String × String)
deriving DecidableEq, Repr

/-- The empty composed system. -/
def World.init : World := ⟨ServerState.init, [], []⟩

/-- Client state of a connection (fresh when it has not reacted yet). -/
def getClient (cls : List (String × ClientState)) (sid : String) : ClientState :=
  (mapFind? sid cls).getD (newClient camTracks)

/-- Deliver one server output to the clients: a `user-joined` broadcast makes
each other room member run its `user-joined` handler (no offer results); an
`existing-participants` reply makes the joiner run its handler, and the
`offer` messages it emits are appended to the log. -/
def applySOut (st : ServerState)
    (acc : List (String × ClientState) × List (String × String)) (o : SOut) :
    List (String × ClientState) × List (String × String) :=
  match o with
  | .userJoined roomKey except s oid nm ih =>
    let recips := broadcastTargets st roomKey except
    (recips.foldl (fun cls r =>
        mapSet r (onUserJoined (getClient cls r) s oid nm ih).1 cls) acc.1,
     acc.2)
  | .existingParticipants target roster =>
    let r := onExistingParticipants (getClient acc.1 target) roster
    (mapSet target r.1 acc.1,
     acc.2 ++ r.2.filterMap (fun m =>
       match m with
       | COut.offerMsg t _ => some (target, t)
       | _ => none))
  | _ => acc

/-- One join of the composed system: the server handles `join-room` and its
outputs are delivered to the clients. -/
def worldJoin (w : World) (jp : JoinOp) : World :=
  let r := joinRoom w.server jp.sid jp.roomSlug jp.sessionId jp.oderId jp.odername jp.isHost
  let acc := r.2.foldl (applySOut r.1) (w.clients, w.offers)
  ⟨r.1, acc.1, acc.2⟩

/-- Run a sequence of joins of the composed system. -/
def runWorld (jps : List JoinOp) : World :=
  jps.foldl worldJoin World.init

/-- The offers of a log whose endpoints are the unordered pair `{a, b}`. -/
def pairOffers (a b : String) (l : List (String × String)) : List (String × String) :=
  l.filter (fun p => (p.1 = a ∧ p.2 = b) ∨ (p.1 = b ∧ p.2 = a))

/-- Connection ids of a join sequence, in join order. -/
def sids (jps : List JoinOp) : List String := jps.map JoinOp.sid

/-- Specification-side membership for join-only traces: the members of a room
are exactly its joiners, in join order. -/
def memOf (jps : List JoinOp) (rk : String) : List String :=
  sids (jps.filter (fun jp => JoinOp.key jp = rk))

/-- One step of the specification-side active-roster function for a
single-room trace. -/
def rUpd (f : String → Bool) : ROp → String → Bool
  | .join s _ _ _ => fun x => if s = x then true else f x
  | .leave s => fun x => if s = x then false else f x
  | .disconnect s => fun x => if s = x then false else f x

/-- The active-roster function accumulated over a single-room trace. -/
def activeFrom (f : String → Bool) (ops : List ROp) : String → Bool :=
  ops.foldl rUpd f

/-- One specification-side step for a join-only trace: record the join and log
one offer from the joiner to each previous member of its room. -/
def specStep (acc : List (String × List String) × List (String × String))
    (jp : JoinOp) : List (String × List String) × List (String × String) :=
  let members := (mapFind? jp.key acc.1).getD []
  (mapSet jp.key (members ++ [jp.sid]) acc.1,
   acc.2 ++ members.map (fun t => (jp.sid, t)))

/-- Room membership predicted by the specification for a join-only trace. -/
def specRooms (jps : List JoinOp) : List (String × List String) :=
  (jps.foldl specStep ([], [])).1

/-- Offer log predicted by the specification for a join-only trace: each
joiner offers to every member already present in its room. -/
def specOffers (jps : List JoinOp) : List (String × String) :=
  (jps.foldl specStep ([], [])).2

/-- Induction invariant tying a single-room server state to the
specification-side active function: room membership tracks the function,
active connections store the room key, stored room keys only name this room,
membership has no duplicates, no other room exists, and room keys are
unique. -/
def RoomInv (rk : String) (st : ServerState) (f : String → Bool) : Prop :=
  (∀ x, x ∈ pids st rk ↔ f x = true) ∧
  (∀ s, f s = true → mapFind? s st.socketRoomKey = some rk) ∧
  (∀ s rk', mapFind? s st.socketRoomKey = some rk' → rk' = rk) ∧
  (pids st rk).Nodup ∧
  (∀ rk', rk' ≠ rk → mapFind? rk' st.rooms = none) ∧
  (mapKeys st.rooms).Nodup

/-- Well-formed rooms map: room keys are unique, and every room is nonempty
with unique participant keys. -/
def WFRooms (rooms : List (String × Room)) : Prop :=
  (mapKeys rooms).Nodup ∧
  ∀ rk room, mapFind? rk rooms = some room →
    room.participants ≠ [] ∧ (mapKeys room.participants).Nodup

/-- Well-formed registry state. -/
def WFState (st : ServerState) : Prop :=
  WFRooms st.rooms

/-! ### Lemmas about the JS map model -/

theorem mapFind?_set_self {α : Type} (k : String) (v : α) (m : List (String × α)) :
    mapFind? k (mapSet k v m) = some v := by
  induction m with
  | nil => simp [mapSet, mapFind?]
  | cons e rest ih =>
    obtain ⟨a, b⟩ := e
    by_cases h : a = k
    · simp [mapSet, h, mapFind?]
    · simp [mapSet, h, mapFind?, ih]

theorem mapFind?_set_ne {α : Type} {k k' : String} (v : α) (m : List (String × α))
    (h : k' ≠ k) : mapFind? k (mapSet k' v m) = mapFind? k m := by
  induction m with
  | nil => simp [mapSet, mapFind?, h]
  | cons e rest ih =>
    obtain ⟨a, b⟩ := e
    by_cases he : a = k'
    · subst he
      simp [mapSet, mapFind?, h]
    · simp only [mapSet, he, if_false, mapFind?]
      by_cases hk : a = k
      · simp [hk]
      · simp [hk, ih]

theorem mapFind?_erase_ne {α : Type} {k k' : String} (m : List (String × α))
    (h : k' ≠ k) : mapFind? k (mapErase k' m) = mapFind? k m := by
  induction m with
  | nil => simp [mapErase]
  | cons e rest ih =>
    obtain ⟨a, b⟩ := e
    by_cases he : a = k'
    · subst he
      simp [mapErase, mapFind?, h]
    · simp only [mapErase, he, if_false, mapFind?]
      by_cases hk : a = k
      · simp [hk]
      · simp [hk, ih]

theorem mem_mapKeys_set {α : Type} (k x : String) (v : α) (m : List (String × α)) :
    x ∈ mapKeys (mapSet k v m) ↔ x = k ∨ x ∈ mapKeys m := by
  induction m with
  | nil => simp [mapSet, mapKeys]
  | cons e rest ih =>
    obtain ⟨a, b⟩ := e
    by_cases he : a = k
    · subst he
      simp [mapSet, mapKeys]
    · simp only [mapSet, he, if_false, mapKeys, List.map_cons, List.mem_cons]
      rw [show (mapSet k v rest).map Prod.fst = mapKeys (mapSet k v rest) from rfl,
        show rest.map Prod.fst = mapKeys rest from rfl]
      rw [ih]
      tauto

theorem mem_mapKeys_erase {α : Type} {k x : String} {m : List (String × α)}
    (hnd : (mapKeys m).Nodup) :
    x ∈ mapKeys (mapErase k m) ↔ x ∈ mapKeys m ∧ x ≠ k := by
  induction m with
  | nil => simp [mapErase, mapKeys]
  | cons e rest ih =>
    obtain ⟨a, b⟩ := e
    simp only [mapKeys, List.map_cons, List.nodup_cons] at hnd
    by_cases he : a = k
    · subst he
      simp only [mapErase, if_pos rfl, mapKeys, List.map_cons, List.mem_cons]
      constructor
      · intro h
        refine ⟨Or.inr h, ?_⟩
        rintro rfl
        exact hnd.1 h
      · rintro ⟨h | h, hx⟩
        · exact absurd h hx
        · exact h
    · simp only [mapErase, he, if_false, mapKeys, List.map_cons, List.mem_cons]
      rw [show (mapErase k rest).map Prod.fst = mapKeys (mapErase k rest) from rfl,
        show rest.map Prod.fst = mapKeys rest from rfl]
      rw [ih hnd.2]
      constructor
      · rintro (h | ⟨h1, h2⟩)
        · subst h
          exact ⟨Or.inl rfl, he⟩
        · exact ⟨Or.inr h1, h2⟩
      · rintro ⟨h | h, hx⟩
        · exact Or.inl h
        · exact Or.inr ⟨h, hx⟩

theorem mapKeys_set_nodup {α : Type} {m : List (String × α)} (k : String) (v : α)
    (hnd : (mapKeys m).Nodup) : (mapKeys (mapSet k v m)).Nodup := by
  induction m with
  | nil => simp [mapSet, mapKeys]
  | cons e rest ih =>
    obtain ⟨a, b⟩ := e
    simp only [mapKeys, List.map_cons, List.nodup_cons] at hnd
    by_cases he : a = k
    · subst he
      simpa [mapSet, mapKeys] using hnd
    · simp only [mapSet, he, if_false, mapKeys, List.map_cons, List.nodup_cons]
      refine ⟨?_, ih hnd.2⟩
      intro hmem
      rw [show (mapSet k v rest).map Prod.fst = mapKeys (mapSet k v rest) from rfl] at hmem
      rcases (mem_mapKeys_set k a v rest).mp hmem with h | h
      · exact he h
      · exact hnd.1 h

theorem mapKeys_erase_nodup {α : Type} {m : List (String × α)} (k : String)
    (hnd : (mapKeys m).Nodup) : (mapKeys (mapErase k m)).Nodup := by
  induction m with
  | nil => simp [mapErase, mapKeys]
  | cons e rest ih =>
    obtain ⟨a, b⟩ := e
    simp only [mapKeys, List.map_cons, List.nodup_cons] at hnd
    by_cases he : a = k
    · subst he
      simpa [mapErase, mapKeys] using hnd.2
    · simp only [mapErase, he, if_false, mapKeys, List.map_cons, List.nodup_cons]
      refine ⟨?_, ih hnd.2⟩
      intro hmem
      rw [show (mapErase k rest).map Prod.fst = mapKeys (mapErase k rest) from rfl] at hmem
      exact hnd.1 ((mem_mapKeys_erase hnd.2).mp hmem).1

theorem mapErase_of_not_mem {α : Type} {k : String} {m : List (String × α)}
    (h : k ∉ mapKeys m) : mapErase k m = m := by
  induction m with
  | nil => rfl
  | cons e rest ih =>
    obtain ⟨a, b⟩ := e
    simp only [mapKeys, List.map_cons, List.mem_cons, not_or] at h
    have ha : a ≠ k := fun hh => h.1 hh.symm
    simp [mapErase, ha, ih h.2]

theorem mapSet_mapSet_self {α : Type} (k : String) (v : α) (m : List (String × α)) :
    mapSet k v (mapSet k v m) = mapSet k v m := by
  induction m with
  | nil => simp [mapSet]
  | cons e rest ih =>
    obtain ⟨a, b⟩ := e
    by_cases he : a = k
    · simp [mapSet, he]
    · simp [mapSet, he, ih]

theorem mapSet_ne_nil {α : Type} (k : String) (v : α) (m : List (String × α)) :
    mapSet k v m ≠ [] := by
  cases m with
  | nil => simp [mapSet]
  | cons e rest =>
    obtain ⟨a, b⟩ := e
    by_cases he : a = k <;> simp [mapSet, he]

theorem mapFind?_isSome_iff_mem {α : Type} (k : String) (m : List (String × α)) :
    (mapFind? k m).isSome ↔ k ∈ mapKeys m := by
  induction m with
  | nil => simp [mapFind?, mapKeys]
  | cons e rest ih =>
    obtain ⟨a, b⟩ := e
    by_cases he : a = k
    · simp [mapFind?, he, mapKeys]
    · simp only [mapFind?, he, if_false, mapKeys, List.map_cons, List.mem_cons]
      rw [show rest.map Prod.fst = mapKeys rest from rfl]
      rw [ih]
      constructor
      · exact Or.inr
      · rintro (h | h)
        · exact absurd h.symm he
        · exact h

theorem mapFind?_eq_none_of_not_mem {α : Type} {k : String} {m : List (String × α)}
    (h : k ∉ mapKeys m) : mapFind? k m = none := by
  rcases ho : mapFind? k m with _ | v
  · rfl
  · exact absurd ((mapFind?_isSome_iff_mem k m).mp (by simp [ho])) h

theorem mapSet_mapSet {α : Type} (k : String) (v v' : α) (m : List (String × α)) :
    mapSet k v' (mapSet k v m) = mapSet k v' m := by
  induction m with
  | nil => simp [mapSet]
  | cons e rest ih =>
    obtain ⟨a, b⟩ := e
    by_cases he : a = k
    · simp [mapSet, he]
    · simp [mapSet, he, ih]

theorem mapSet_of_not_mem {α : Type} {k : String} (v : α) {m : List (String × α)}
    (h : k ∉ mapKeys m) : mapSet k v m = m ++ [(k, v)] := by
  induction m with
  | nil => simp [mapSet]
  | cons e rest ih =>
    obtain ⟨a, b⟩ := e
    simp only [mapKeys, List.map_cons, List.mem_cons, not_or] at h
    have ha : a ≠ k := fun hh => h.1 hh.symm
    simp [mapSet, ha, ih h.2]

theorem mapErase_eq_nil {α : Type} {k : String} {m : List (String × α)}
    (h : mapErase k m = []) : m = [] ∨ ∃ v, m = [(k, v)] := by
  cases m with
  | nil => exact Or.inl rfl
  | cons e rest =>
    obtain ⟨a, b⟩ := e
    by_cases he : a = k
    · subst he
      simp only [mapErase, if_pos rfl] at h
      subst h
      exact Or.inr ⟨b, rfl⟩
    · simp [mapErase, he] at h

theorem mapFind?_map_value {α β : Type} (k : String) (f : α → β)
    (m : List (String × α)) :
    mapFind? k (m.map (fun e => (e.1, f e.2))) = (mapFind? k m).map f := by
  induction m with
  | nil => simp [mapFind?]
  | cons e rest ih =>
    obtain ⟨a, b⟩ := e
    by_cases he : a = k
    · simp [mapFind?, he]
    · simp [mapFind?, he, ih]

theorem mem_mapKeys_foldl_set {α : Type} (g : List (String × α) → String → α)
    (l : List String) (cls : List (String × α)) (x : String)
    (h : x ∈ mapKeys (l.foldl (fun c r => mapSet r (g c r) c) cls)) :
    x ∈ mapKeys cls ∨ x ∈ l := by
  induction l generalizing cls with
  | nil => exact Or.inl h
  | cons r rest ih =>
    rcases ih (mapSet r (g cls r) cls) (by simpa using h) with h' | h'
    · rcases (mem_mapKeys_set r x (g cls r) cls).mp h' with h'' | h''
      · exact Or.inr (by simp [h''])
      · exact Or.inl h''
    · exact Or.inr (by simp [h'])

/-! ### Equations for the server handlers -/

theorem joinRoom_absent {st : ServerState} {sid roomSlug : String}
    {sessionId : Int} (oderId : Int) (odername : String) (isHost : Bool)
    (h : mapFind? (mkRoomKey roomSlug sessionId) st.rooms = none) :
    joinRoom st sid roomSlug sessionId oderId odername isHost =
      ({ rooms := mapSet (mkRoomKey roomSlug sessionId)
            ⟨sessionId, [(sid, ⟨sid, oderId, odername, isHost, true, true⟩)]⟩ st.rooms,
         socketRoomKey := mapSet sid (mkRoomKey roomSlug sessionId) st.socketRoomKey },
       [SOut.userJoined (mkRoomKey roomSlug sessionId) sid sid oderId odername isHost,
        SOut.existingParticipants sid []]) := by
  simp [joinRoom, h, mapFind?_set_self, mapSet_mapSet, mapSet, rosterOf]

theorem joinRoom_present {st : ServerState} {sid roomSlug : String}
    {sessionId : Int} (oderId : Int) (odername : String) (isHost : Bool)
    {room : Room} (h : mapFind? (mkRoomKey roomSlug sessionId) st.rooms = some room) :
    joinRoom st sid roomSlug sessionId oderId odername isHost =
      ({ rooms := mapSet (mkRoomKey roomSlug sessionId)
            ⟨room.sessionId,
              mapSet sid ⟨sid, oderId, odername, isHost, true, true⟩ room.participants⟩
            st.rooms,
         socketRoomKey := mapSet sid (mkRoomKey roomSlug sessionId) st.socketRoomKey },
       [SOut.userJoined (mkRoomKey roomSlug sessionId) sid sid oderId odername isHost,
        SOut.existingParticipants sid
          (rosterOf (mapSet sid ⟨sid, oderId, odername, isHost, true, true⟩
            room.participants) sid)]) := by
  simp [joinRoom, h]

theorem handleDisconnect_noKey {st : ServerState} {sid : String}
    (h : mapFind? sid st.socketRoomKey = none) :
    handleDisconnect st sid = (st, []) := by
  simp [handleDisconnect, h]

theorem handleDisconnect_noRoom {st : ServerState} {sid roomKey : String}
    (h1 : mapFind? sid st.socketRoomKey = some roomKey)
    (h2 : mapFind? roomKey st.rooms = none) :
    handleDisconnect st sid = (st, []) := by
  simp [handleDisconnect, h1, h2]

theorem handleDisconnect_found {st : ServerState} {sid roomKey : String} {room : Room}
    (h1 : mapFind? sid st.socketRoomKey = some roomKey)
    (h2 : mapFind? roomKey st.rooms = some room) :
    handleDisconnect st sid =
      ({ st with rooms :=
          if (mapErase sid room.participants).length = 0 then mapErase roomKey st.rooms
          else mapSet roomKey ⟨room.sessionId, mapErase sid room.participants⟩ st.rooms },
       [SOut.userLeft roomKey sid sid]) := by
  simp [handleDisconnect, h1, h2]

/-! ### The registry well-formedness invariant -/

theorem wf_init : WFState ServerState.init := by
  refine ⟨by simp [ServerState.init, mapKeys], ?_⟩
  intro rk room h
  simp [ServerState.init, mapFind?] at h

theorem wfRooms_set_room {rooms : List (String × Room)} (hw : WFRooms rooms)
    (rk : String) {room : Room} (hne : room.participants ≠ [])
    (hnd : (mapKeys room.participants).Nodup) :
    WFRooms (mapSet rk room rooms) := by
  obtain ⟨hk, hr⟩ := hw
  refine ⟨mapKeys_set_nodup _ _ hk, ?_⟩
  intro rk' room' hfind'
  by_cases hrk : rk' = rk
  · subst hrk
    rw [mapFind?_set_self] at hfind'
    cases hfind'
    exact ⟨hne, hnd⟩
  · rw [mapFind?_set_ne _ _ (fun hh => hrk hh.symm)] at hfind'
    exact hr rk' room' hfind'

theorem wf_joinRoom {st : ServerState} (h : WFState st) (sid roomSlug : String)
    (sessionId oderId : Int) (odername : String) (isHost : Bool) :
    WFState (joinRoom st sid roomSlug sessionId oderId odername isHost).1 := by
  rcases hfind : mapFind? (mkRoomKey roomSlug sessionId) st.rooms with _ | room0
  · rw [joinRoom_absent oderId odername isHost hfind]
    show WFRooms (mapSet (mkRoomKey roomSlug sessionId) _ st.rooms)
    exact wfRooms_set_room h _ (by simp) (by simp [mapKeys])
  · rw [joinRoom_present oderId odername isHost hfind]
    show WFRooms (mapSet (mkRoomKey roomSlug sessionId) _ st.rooms)
    exact wfRooms_set_room h _ (mapSet_ne_nil _ _ _)
      (mapKeys_set_nodup _ _ (h.2 _ room0 hfind).2)

theorem wf_handleDisconnect {st : ServerState} (h : WFState st) (sid : String) :
    WFState (handleDisconnect st sid).1 := by
  obtain ⟨hk, hr⟩ := h
  rcases h1 : mapFind? sid st.socketRoomKey with _ | roomKey
  · rw [handleDisconnect_noKey h1]
    exact ⟨hk, hr⟩
  · rcases h2 : mapFind? roomKey st.rooms with _ | room
    · rw [handleDisconnect_noRoom h1 h2]
      exact ⟨hk, hr⟩
    · rw [handleDisconnect_found h1 h2]
      by_cases hz : (mapErase sid room.participants).length = 0
      · rw [if_pos hz]
        show WFRooms (mapErase roomKey st.rooms)
        refine ⟨mapKeys_erase_nodup _ hk, ?_⟩
        intro rk room' hfind'
        by_cases hrk : rk = roomKey
        · subst hrk
          rw [mapFind?_eq_none_of_not_mem
            (fun hmem => ((mem_mapKeys_erase hk).mp hmem).2 rfl)] at hfind'
          cases hfind'
        · rw [mapFind?_erase_ne _ (fun hh => hrk hh.symm)] at hfind'
          exact hr rk room' hfind'
      · rw [if_neg hz]
        show WFRooms (mapSet roomKey _ st.rooms)
        refine wfRooms_set_room ⟨hk, hr⟩ _ ?_ ?_
        · intro hnil
          exact hz (by simpa using congrArg List.length hnil)
        · exact mapKeys_erase_nodup _ (hr _ room h2).2

theorem wf_mediaStateChange {st : ServerState} (h : WFState st) (sid : String)
    (v a : Bool) : WFState (mediaStateChange st sid v a).1 := by
  rcases h1 : mapFind? sid st.socketRoomKey with _ | roomKey
  · simpa [mediaStateChange, h1, WFState] using h
  · rcases h2 : mapFind? roomKey st.rooms with _ | room
    · simpa [mediaStateChange, h1, h2, WFState] using h
    · rcases h3 : mapFind? sid room.participants with _ | p
      · simpa [mediaStateChange, h1, h2, h3, WFState] using h
      · simp only [mediaStateChange, h1, h2, h3]
        show WFRooms (mapSet roomKey _ st.rooms)
        exact wfRooms_set_room h _ (mapSet_ne_nil _ _ _)
          (mapKeys_set_nodup _ _ (h.2 _ room h2).2)

theorem wf_step {st : ServerState} (h : WFState st) (e : Event) :
    WFState (step st e).1 := by
  cases e with
  | join sid slug sess oid nm ih => exact wf_joinRoom h sid slug sess oid nm ih
  | leave sid => exact wf_handleDisconnect h sid
  | disconnect sid => exact wf_handleDisconnect h sid
  | mediaStateChange sid v a => exact wf_mediaStateChange h sid v a
  | offer sid t p => exact h
  | answer sid t p => exact h
  | iceCandidate sid t p => exact h
  | screenShareStarted sid =>
    rcases h1 : mapFind? sid st.socketRoomKey with _ | rk <;>
      simpa [step, screenShareStarted, h1] using h
  | screenShareStopped sid =>
    rcases h1 : mapFind? sid st.socketRoomKey with _ | rk <;>
      simpa [step, screenShareStopped, h1] using h

theorem wf_runFrom {st : ServerState} (h : WFState st) (es : List Event) :
    WFState (runFrom st es) := by
  induction es generalizing st with
  | nil => exact h
  | cons e rest ih => exact ih (wf_step h e)

theorem wf_run (es : List Event) : WFState (run es) :=
  wf_runFrom wf_init es

/-! ### Roster lemmas and the single-room invariant -/

theorem pids_of_find {st : ServerState} {rk : String} {room : Room}
    (h : mapFind? rk st.rooms = some room) : pids st rk = mapKeys room.participants := by
  simp [pids, h]

theorem pids_of_none {st : ServerState} {rk : String}
    (h : mapFind? rk st.rooms = none) : pids st rk = [] := by
  simp [pids, h, mapKeys]

theorem pids_ext {st st' : ServerState} {rk : String}
    (h : mapFind? rk st.rooms = mapFind? rk st'.rooms) : pids st rk = pids st' rk := by
  simp only [pids, h]

theorem mapKeys_set_of_mem {α : Type} {k : String} (v : α) {m : List (String × α)}
    (h : k ∈ mapKeys m) : mapKeys (mapSet k v m) = mapKeys m := by
  induction m with
  | nil => simp [mapKeys] at h
  | cons e rest ih =>
    obtain ⟨a, b⟩ := e
    by_cases he : a = k
    · subst he
      simp [mapSet, mapKeys]
    · simp only [mapKeys, List.map_cons, List.mem_cons] at h
      rcases h with h | h
      · exact absurd h.symm he
      · simp [mapSet, he, mapKeys]
        exact ih h

theorem mem_rosterIds (parts : List (String × Participant)) (s x : String) :
    x ∈ (rosterOf parts s).map RosterEntry.socketId ↔ x ∈ mapKeys parts ∧ x ≠ s := by
  simp only [rosterOf, List.map_map, List.mem_map, List.mem_filter, mapKeys,
    Function.comp]
  constructor
  · rintro ⟨e, ⟨he, hne⟩, rfl⟩
    exact ⟨⟨e, he, rfl⟩, by simpa using hne⟩
  · rintro ⟨⟨e, he, rfl⟩, hne⟩
    exact ⟨e, ⟨he, by simpa using hne⟩, rfl⟩

theorem roomInv_init (rk : String) : RoomInv rk ServerState.init (fun _ => false) := by
  refine ⟨?_, ?_, ?_, ?_, ?_, ?_⟩
  · intro x
    simp [pids, ServerState.init, mapFind?, mapKeys]
  · intro s h
    cases h
  · intro s rk' h
    simp [ServerState.init, mapFind?] at h
  · simp [pids, ServerState.init, mapFind?, mapKeys]
  · intro rk' h
    simp [ServerState.init, mapFind?]
  · simp [ServerState.init, mapKeys]

theorem roomInv_of_parts {rk : String} {f : String → Bool}
    (rooms' : List (String × Room)) (skr' : List (String × String))
    (hmem' : ∀ x, x ∈ mapKeys ((mapFind? rk rooms').getD ⟨0, []⟩).participants ↔
      f x = true)
    (hnd' : (mapKeys ((mapFind? rk rooms').getD ⟨0, []⟩).participants).Nodup)
    (hkey' : ∀ y, f y = true → mapFind? y skr' = some rk)
    (hkeyOnly' : ∀ y rk', mapFind? y skr' = some rk' → rk' = rk)
    (hother' : ∀ rk'', rk'' ≠ rk → mapFind? rk'' rooms' = none)
    (hrk' : (mapKeys rooms').Nodup) :
    RoomInv rk ({ rooms := rooms', socketRoomKey := skr' } : ServerState) f := by
  have hpids : pids ({ rooms := rooms', socketRoomKey := skr' } : ServerState) rk =
      mapKeys ((mapFind? rk rooms').getD ⟨0, []⟩).participants := rfl
  refine ⟨?_, hkey', hkeyOnly', ?_, ?_, hrk'⟩
  · intro x
    rw [hpids]
    exact hmem' x
  · rw [hpids]
    exact hnd'
  · exact hother'

theorem roomInv_join {roomSlug : String} {sessionId : Int} {st : ServerState}
    {f : String → Bool} (h : RoomInv (mkRoomKey roomSlug sessionId) st f)
    (s : String) (oid : Int) (nm : String) (ih : Bool) :
    RoomInv (mkRoomKey roomSlug sessionId)
      (joinRoom st s roomSlug sessionId oid nm ih).1
      (fun x => if s = x then true else f x) := by
  obtain ⟨hmem, hkey, hkeyOnly, hnd, hother, hrk⟩ := h
  have hskr : ∀ y (hy : (fun x => if s = x then true else f x) y = true),
      mapFind? y (mapSet s (mkRoomKey roomSlug sessionId) st.socketRoomKey) =
        some (mkRoomKey roomSlug sessionId) := by
    intro y hy
    have hy' : (if s = y then true else f y) = true := hy
    by_cases hys : s = y
    · subst hys
      exact mapFind?_set_self _ _ _
    · rw [if_neg hys] at hy'
      rw [mapFind?_set_ne _ _ hys]
      exact hkey y hy'
  have hskrOnly : ∀ y rk',
      mapFind? y (mapSet s (mkRoomKey roomSlug sessionId) st.socketRoomKey) = some rk' →
        rk' = mkRoomKey roomSlug sessionId := by
    intro y rk' hy
    by_cases hys : s = y
    · subst hys
      rw [mapFind?_set_self] at hy
      cases hy
      rfl
    · rw [mapFind?_set_ne _ _ hys] at hy
      exact hkeyOnly y rk' hy
  rcases hfind : mapFind? (mkRoomKey roomSlug sessionId) st.rooms with _ | room0
  · have hpids : pids st (mkRoomKey roomSlug sessionId) = [] := pids_of_none hfind
    rw [joinRoom_absent oid nm ih hfind]
    refine roomInv_of_parts _ _ ?_ ?_ hskr hskrOnly ?_ (mapKeys_set_nodup _ _ hrk)
    · intro x
      rw [mapFind?_set_self]
      by_cases hx : s = x
      · subst hx
        simp [mapKeys]
      · have hfx : f x = false := by
          rcases hb : f x with _ | _
          · rfl
          · exact absurd ((hmem x).mpr hb) (by simp [hpids])
        simp only [Option.getD_some, mapKeys, List.map_cons, List.map_nil,
          List.mem_singleton, if_neg hx, hfx]
        simp
        exact fun hh => hx hh.symm
    · rw [mapFind?_set_self]
      simp [mapKeys]
    · intro rk'' hr
      rw [mapFind?_set_ne _ _ (fun hh => hr hh.symm)]
      exact hother rk'' hr
  · have hpids : pids st (mkRoomKey roomSlug sessionId) = mapKeys room0.participants :=
      pids_of_find hfind
    rw [joinRoom_present oid nm ih hfind]
    refine roomInv_of_parts _ _ ?_ ?_ hskr hskrOnly ?_ (mapKeys_set_nodup _ _ hrk)
    · intro x
      rw [mapFind?_set_self]
      show x ∈ mapKeys (mapSet s ⟨s, oid, nm, ih, true, true⟩ room0.participants) ↔ _
      rw [mem_mapKeys_set]
      by_cases hx : s = x
      · subst hx
        simp
      · have hxs : ¬x = s := fun hh => hx hh.symm
        rw [← hpids]
        simp [hxs, hx, hmem x]
    · rw [mapFind?_set_self]
      show (mapKeys (mapSet s ⟨s, oid, nm, ih, true, true⟩ room0.participants)).Nodup
      rw [hpids] at hnd
      exact mapKeys_set_nodup _ _ hnd
    · intro rk'' hr
      rw [mapFind?_set_ne _ _ (fun hh => hr hh.symm)]
      exact hother rk'' hr

theorem roomInv_skip {rk : String} {st : ServerState} {f : String → Bool}
    (h : RoomInv rk st f) {s : String} (hfs : f s = false) :
    RoomInv rk st (fun x => if s = x then false else f x) := by
  obtain ⟨hmem, hkey, hkeyOnly, hnd, hother, hrk⟩ := h
  refine ⟨?_, ?_, hkeyOnly, hnd, hother, hrk⟩
  · intro x
    by_cases hxs : s = x
    · subst hxs
      show s ∈ pids st rk ↔ (if s = s then false else f s) = true
      rw [if_pos rfl]
      simp only [Bool.false_eq_true, iff_false]
      intro hm
      rw [(hmem s).mp hm] at hfs
      cases hfs
    · show x ∈ pids st rk ↔ (if s = x then false else f x) = true
      rw [if_neg hxs]
      exact hmem x
  · intro y hy
    have hy' : (if s = y then false else f y) = true := hy
    by_cases hys : s = y
    · rw [if_pos hys] at hy'
      cases hy'
    · rw [if_neg hys] at hy'
      exact hkey y hy'

theorem roomInv_leave {rk : String} {st : ServerState} {f : String → Bool}
    (h : RoomInv rk st f) (s : String) :
    RoomInv rk (handleDisconnect st s).1 (fun x => if s = x then false else f x) := by
  obtain ⟨hmem, hkey, hkeyOnly, hnd, hother, hrk⟩ := h
  rcases hsk : mapFind? s st.socketRoomKey with _ | rk0
  · rw [handleDisconnect_noKey hsk]
    refine roomInv_skip ⟨hmem, hkey, hkeyOnly, hnd, hother, hrk⟩ ?_
    rcases hb : f s with _ | _
    · rfl
    · rw [hkey s hb] at hsk
      cases hsk
  · have hrk0 : rk0 = rk := hkeyOnly s rk0 hsk
    subst hrk0
    rcases hro : mapFind? rk0 st.rooms with _ | room
    · rw [handleDisconnect_noRoom hsk hro]
      refine roomInv_skip ⟨hmem, hkey, hkeyOnly, hnd, hother, hrk⟩ ?_
      rcases hb : f s with _ | _
      · rfl
      · exact absurd ((hmem s).mpr hb) (by simp [pids_of_none hro])
    · have hndp : (mapKeys room.participants).Nodup := by
        rw [← pids_of_find hro]
        exact hnd
      have hkey' : ∀ y, (fun x => if s = x then false else f x) y = true →
          mapFind? y st.socketRoomKey = some rk0 := by
        intro y hy
        have hy' : (if s = y then false else f y) = true := hy
        by_cases hys : s = y
        · rw [if_pos hys] at hy'
          cases hy'
        · rw [if_neg hys] at hy'
          exact hkey y hy'
      rw [handleDisconnect_found hsk hro]
      by_cases hz : (mapErase s room.participants).length = 0
      · rw [if_pos hz]
        have herased : mapErase s room.participants = [] := List.length_eq_zero.mp hz
        have hne : mapFind? rk0 (mapErase rk0 st.rooms) = none :=
          mapFind?_eq_none_of_not_mem (fun hmemk => ((mem_mapKeys_erase hrk).mp hmemk).2 rfl)
        refine roomInv_of_parts _ _ ?_ ?_ hkey' hkeyOnly ?_ (mapKeys_erase_nodup _ hrk)
        · intro x
          rw [hne]
          show x ∈ mapKeys ([] : List (String × Participant)) ↔ _
          by_cases hxs : s = x
          · subst hxs
            simp [mapKeys]
          · have hfx : f x = false := by
              rcases hb : f x with _ | _
              · rfl
              · have hx' := (hmem x).mpr hb
                rw [pids_of_find hro] at hx'
                rcases mapErase_eq_nil herased with hpnil | ⟨v, hpv⟩
                · rw [hpnil] at hx'
                  simp [mapKeys] at hx'
                · rw [hpv] at hx'
                  simp [mapKeys] at hx'
                  exact (hxs hx'.symm).elim
            simp [mapKeys, if_neg hxs, hfx]
        · rw [hne]
          show (mapKeys ([] : List (String × Participant))).Nodup
          simp [mapKeys]
        · intro rk'' hr
          rw [mapFind?_erase_ne _ (fun hh => hr hh.symm)]
          exact hother rk'' hr
      · rw [if_neg hz]
        refine roomInv_of_parts _ _ ?_ ?_ hkey' hkeyOnly ?_ (mapKeys_set_nodup _ _ hrk)
        · intro x
          rw [mapFind?_set_self]
          show x ∈ mapKeys (mapErase s room.participants) ↔ _
          rw [mem_mapKeys_erase hndp]
          by_cases hxs : s = x
          · subst hxs
            simp
          · have hx : x ∈ mapKeys room.participants ↔ f x = true := by
              rw [← pids_of_find hro]
              exact hmem x
            have hxs' : x ≠ s := fun hh => hxs hh.symm
            show x ∈ mapKeys room.participants ∧ x ≠ s ↔ (if s = x then false else f x) = true
            rw [if_neg hxs, hx]
            simp [hxs']
        · rw [mapFind?_set_self]
          show (mapKeys (mapErase s room.participants)).Nodup
          exact mapKeys_erase_nodup _ hndp
        · intro rk'' hr
          rw [mapFind?_set_ne _ _ (fun hh => hr hh.symm)]
          exact hother rk'' hr

theorem roomInv_runRoom_aux (roomSlug : String) (sessionId : Int) (ops : List ROp)
    {st : ServerState} {f : String → Bool}
    (h : RoomInv (mkRoomKey roomSlug sessionId) st f) :
    RoomInv (mkRoomKey roomSlug sessionId)
      (runFrom st (ops.map (ROp.toEvent roomSlug sessionId)))
      (activeFrom f ops) := by
  induction ops generalizing st f with
  | nil => exact h
  | cons op rest ih =>
    have hstep : RoomInv (mkRoomKey roomSlug sessionId)
        (step st (op.toEvent roomSlug sessionId)).1 (rUpd f op) := by
      cases op with
      | join s oid nm ihost => exact roomInv_join h s oid nm ihost
      | leave s => exact roomInv_leave h s
      | disconnect s => exact roomInv_leave h s
    exact ih hstep

theorem roomInv_runRoom (roomSlug : String) (sessionId : Int) (ops : List ROp) :
    RoomInv (mkRoomKey roomSlug sessionId) (runRoom roomSlug sessionId ops)
      (activeFrom (fun _ => false) ops) :=
  roomInv_runRoom_aux roomSlug sessionId ops (roomInv_init _)

theorem activeAfter_foldl (ops : List ROp) (f : String → Bool) (x : String) :
    ops.foldl (fun b op =>
      match op with
      | .join s _ _ _ => if s = x then true else b
      | .leave s => if s = x then false else b
      | .disconnect s => if s = x then false else b) (f x) = activeFrom f ops x := by
  induction ops generalizing f with
  | nil => rfl
  | cons op rest ih =>
    cases op with
    | join s oid nm ihost => exact ih (fun y => if s = y then true else f y)
    | leave s => exact ih (fun y => if s = y then false else f y)
    | disconnect s => exact ih (fun y => if s = y then false else f y)

theorem activeAfter_eq (ops : List ROp) (x : String) :
    activeAfter x ops = activeFrom (fun _ => false) ops x :=
  activeAfter_foldl ops (fun _ => false) x

/-! ### Lemmas for the glare-avoidance property -/

theorem indexOf_concat_of_not_mem {l : List String} {a : String} (h : a ∉ l) :
    (l ++ [a]).indexOf a = l.length := by
  induction l with
  | nil => simp
  | cons x xs ih =>
    simp only [List.mem_cons, not_or] at h
    have hxa : ¬x = a := fun hh => h.1 hh.symm
    simp [List.indexOf_cons, hxa, ih h.2]

theorem filter_eq_singleton_of_nodup {l : List String} {a : String}
    (hnd : l.Nodup) (ha : a ∈ l) : l.filter (fun x => x = a) = [a] := by
  induction l with
  | nil => cases ha
  | cons x xs ih =>
    rcases List.nodup_cons.mp hnd with ⟨hx, hxs⟩
    rcases List.mem_cons.mp ha with h1 | h1
    · subst h1
      rw [List.filter_cons_of_pos (by simp)]
      have hrest : xs.filter (fun x => x = a) = [] := by
        rw [List.filter_eq_nil_iff]
        intro b hb
        simp only [decide_eq_true_eq]
        rintro rfl
        exact hx hb
      rw [hrest]
    · by_cases hxa : x = a
      · subst hxa
        exact absurd h1 hx
      · rw [List.filter_cons_of_neg (by simp [hxa])]
        exact ih hxs h1

theorem sids_append (l1 l2 : List JoinOp) : sids (l1 ++ l2) = sids l1 ++ sids l2 := by
  simp [sids]

theorem memOf_append (l : List JoinOp) (jp : JoinOp) (rk : String) :
    memOf (l ++ [jp]) rk = memOf l rk ++ (if jp.key = rk then [jp.sid] else []) := by
  by_cases h : jp.key = rk <;> simp [memOf, sids, List.filter_append, h]

theorem memOf_subset {jps : List JoinOp} {rk x : String} (h : x ∈ memOf jps rk) :
    x ∈ sids jps := by
  simp only [memOf, sids, List.mem_map] at h ⊢
  rcases h with ⟨jp, hjp, rfl⟩
  exact ⟨jp, (List.mem_filter.mp hjp).1, rfl⟩

theorem memOf_nodup {jps : List JoinOp} (h : (sids jps).Nodup) (rk : String) :
    (memOf jps rk).Nodup :=
  h.sublist ((List.filter_sublist jps).map JoinOp.sid)

theorem specRooms_members (jps : List JoinOp) (rk : String) :
    (mapFind? rk (specRooms jps)).getD [] = memOf jps rk := by
  induction jps using List.reverseRecOn generalizing rk with
  | nil => simp [specRooms, mapFind?, memOf, sids]
  | append_singleton l jp ih =>
    have hfold : specRooms (l ++ [jp]) =
        mapSet jp.key ((mapFind? jp.key (specRooms l)).getD [] ++ [jp.sid])
          (specRooms l) := by
      simp [specRooms, List.foldl_append, specStep]
    rw [hfold, memOf_append]
    by_cases h : jp.key = rk
    · subst h
      rw [mapFind?_set_self, if_pos rfl, ih jp.key]
      rfl
    · rw [mapFind?_set_ne _ _ h, if_neg h, ih rk]
      simp

theorem specOffers_append (l : List JoinOp) (jp : JoinOp) :
    specOffers (l ++ [jp]) =
      specOffers l ++ (memOf l jp.key).map (fun t => (jp.sid, t)) := by
  have hm := specRooms_members l jp.key
  simp only [specOffers, List.foldl_append, List.foldl_cons, List.foldl_nil, specStep]
  rw [show ((List.foldl specStep ([], []) l).1 : List (String × List String)) =
    specRooms l from rfl]
  rw [hm]

theorem specOffers_endpoints (jps : List JoinOp) :
    ∀ s t, (s, t) ∈ specOffers jps → s ∈ sids jps ∧ t ∈ sids jps := by
  induction jps using List.reverseRecOn with
  | nil =>
    intro s t h
    simp [specOffers] at h
  | append_singleton l jp ih =>
    intro s t h
    rw [specOffers_append] at h
    rcases List.mem_append.mp h with h | h
    · rcases ih s t h with ⟨h1, h2⟩
      rw [sids_append]
      exact ⟨List.mem_append.mpr (Or.inl h1), List.mem_append.mpr (Or.inl h2)⟩
    · rcases List.mem_map.mp h with ⟨u, hu, huv⟩
      cases huv
      rw [sids_append]
      refine ⟨List.mem_append.mpr (Or.inr ?_), List.mem_append.mpr (Or.inl ?_)⟩
      · simp [sids]
      · exact memOf_subset hu

theorem pairOffers_append (a b : String) (l1 l2 : List (String × String)) :
    pairOffers a b (l1 ++ l2) = pairOffers a b l1 ++ pairOffers a b l2 := by
  simp [pairOffers]

theorem pairOffers_specOffers (jps : List JoinOp) (A B rk : String)
    (hnd : (sids jps).Nodup) (hAB : A ≠ B)
    (hA : A ∈ memOf jps rk) (hB : B ∈ memOf jps rk)
    (hord : (sids jps).indexOf A < (sids jps).indexOf B) :
    pairOffers A B (specOffers jps) = [(B, A)] := by
  induction jps using List.reverseRecOn generalizing rk with
  | nil => simp [memOf, sids] at hA
  | append_singleton l jp ih =>
    have hndl : (sids l).Nodup := by
      rw [sids_append] at hnd
      exact (List.nodup_append.mp hnd).1
    have hfresh : jp.sid ∉ sids l := by
      rw [sids_append] at hnd
      intro hmem
      exact (List.nodup_append.mp hnd).2.2 hmem (by simp [sids])
    rw [memOf_append] at hA hB
    rw [specOffers_append, pairOffers_append]
    by_cases hsB : jp.sid = B
    · subst hsB
      have hk : jp.key = rk := by
        rcases List.mem_append.mp hB with h | h
        · exact absurd (memOf_subset h) hfresh
        · by_contra hk
          rw [if_neg hk] at h
          cases h
      have hA' : A ∈ memOf l rk := by
        rcases List.mem_append.mp hA with h | h
        · exact h
        · rw [if_pos hk] at h
          rcases List.mem_singleton.mp h with rfl
          exact absurd rfl hAB
      have hleft : pairOffers A jp.sid (specOffers l) = [] := by
        rw [pairOffers, List.filter_eq_nil_iff]
        intro p hp
        rcases specOffers_endpoints l p.1 p.2 hp with ⟨h1, h2⟩
        simp only [decide_eq_true_eq, not_or, not_and]
        constructor
        · intro _ h2b
          exact hfresh (h2b ▸ h2)
        · intro h1b
          exact absurd (h1b ▸ h1) hfresh
      have hright : pairOffers A jp.sid
          ((memOf l jp.key).map (fun t => (jp.sid, t))) = [(jp.sid, A)] := by
        rw [pairOffers, List.filter_map]
        have hcongr : ((memOf l jp.key).filter
            ((fun p : String × String =>
              decide ((p.1 = A ∧ p.2 = jp.sid) ∨ (p.1 = jp.sid ∧ p.2 = A))) ∘
              (fun t => (jp.sid, t)))) =
            (memOf l jp.key).filter (fun x => x = A) := by
          apply List.filter_congr
          intro t _
          simp only [Function.comp, decide_eq_decide]
          constructor
          · rintro (⟨h1, _⟩ | ⟨_, h2⟩)
            · exact absurd h1.symm hAB
            · exact h2
          · intro h
            exact Or.inr ⟨by trivial, h⟩
        rw [hcongr, hk, filter_eq_singleton_of_nodup (memOf_nodup hndl rk) hA']
        rfl
      rw [hleft, hright]
      rfl
    · by_cases hsA : jp.sid = A
      · subst hsA
        have hB' : B ∈ memOf l rk := by
          rcases List.mem_append.mp hB with h | h
          · exact h
          · by_cases hk : jp.key = rk
            · rw [if_pos hk] at h
              exact absurd (List.mem_singleton.mp h).symm hsB
            · rw [if_neg hk] at h
              cases h
        have hBl : B ∈ sids l := memOf_subset hB'
        have hidxA : (sids (l ++ [jp])).indexOf jp.sid = (sids l).length := by
          rw [sids_append]
          show ((sids l) ++ [jp.sid]).indexOf jp.sid = (sids l).length
          exact indexOf_concat_of_not_mem hfresh
        have hidxB : (sids (l ++ [jp])).indexOf B < (sids l).length := by
          rw [sids_append]
          show ((sids l) ++ [jp.sid]).indexOf B < (sids l).length
          rw [List.indexOf_append_of_mem hBl]
          exact List.indexOf_lt_length.mpr hBl
        rw [hidxA] at hord
        omega
      · have hA' : A ∈ memOf l rk := by
          rcases List.mem_append.mp hA with h | h
          · exact h
          · by_cases hk : jp.key = rk
            · rw [if_pos hk] at h
              exact absurd (List.mem_singleton.mp h).symm hsA
            · rw [if_neg hk] at h
              cases h
        have hB' : B ∈ memOf l rk := by
          rcases List.mem_append.mp hB with h | h
          · exact h
          · by_cases hk : jp.key = rk
            · rw [if_pos hk] at h
              exact absurd (List.mem_singleton.mp h).symm hsB
            · rw [if_neg hk] at h
              cases h
        have hord' : (sids l).indexOf A < (sids l).indexOf B := by
          rw [sids_append, List.indexOf_append_of_mem (memOf_subset hA'),
            List.indexOf_append_of_mem (memOf_subset hB')] at hord
          exact hord
        have hright : pairOffers A B
            ((memOf l jp.key).map (fun t => (jp.sid, t))) = [] := by
          rw [pairOffers, List.filter_eq_nil_iff]
          intro p hp
          rcases List.mem_map.mp hp with ⟨u, _, rfl⟩
          simp only [decide_eq_true_eq, not_or, not_and]
          exact ⟨fun h1 _ => hsA h1, fun h1 => absurd h1 hsB⟩
        rw [ih rk hndl hA' hB' hord', hright]
        rfl

theorem onExistingParticipants_outs {cs : ClientState} {stream : List Track}
    (h : cs.localStream = some stream) (roster : List RosterEntry) :
    (onExistingParticipants cs roster).2 =
      roster.map (fun e => COut.offerMsg e.socketId "sdp-offer") := by
  induction roster generalizing cs with
  | nil => rfl
  | cons p rest ih =>
    have hpres : (initiateCall cs p.socketId p.oderId p.odername p.isHost
        stream).1.localStream = some stream := h
    simp only [onExistingParticipants, h]
    rw [ih hpres]
    rfl

theorem rosterOf_fresh {parts : List (String × Participant)} {sid : String}
    (h : sid ∉ mapKeys parts) (p : Participant) :
    rosterOf (mapSet sid p parts) sid = parts.map (fun e =>
      { socketId := e.1, oderId := e.2.oderId, odername := e.2.odername,
        isHost := e.2.isHost, hasVideo := e.2.hasVideo, hasAudio := e.2.hasAudio }) := by
  rw [rosterOf, mapSet_of_not_mem p h, List.filter_append]
  have h1 : parts.filter (fun e => e.1 ≠ sid) = parts := by
    rw [List.filter_eq_self]
    intro e he
    simp only [ne_eq, decide_not, Bool.not_eq_eq_eq_not, Bool.not_true,
      decide_eq_false_iff_not]
    intro hh
    exact h (hh ▸ List.mem_map_of_mem Prod.fst he)
  have h2 : ([(sid, p)].filter (fun e : String × Participant => e.1 ≠ sid)) = [] := by
    simp
  rw [h1, h2, List.append_nil]

theorem mapKeys_set_fresh {α : Type} {k : String} (v : α) {m : List (String × α)}
    (h : k ∉ mapKeys m) : mapKeys (mapSet k v m) = mapKeys m ++ [k] := by
  rw [mapSet_of_not_mem v h]
  simp [mapKeys]

theorem filterMap_offerMsg (target : String) (roster : List RosterEntry) :
    (roster.map (fun e => COut.offerMsg e.socketId "sdp-offer")).filterMap (fun m =>
      match m with
      | COut.offerMsg t _ => some (target, t)
      | _ => none) = roster.map (fun e => (target, e.socketId)) := by
  induction roster with
  | nil => rfl
  | cons p rest ih => simp only [List.map_cons, List.filterMap_cons, ih]

theorem roster_offer_pairs {parts : List (String × Participant)} {sid : String}
    (h : sid ∉ mapKeys parts) (p : Participant) (target : String) :
    (rosterOf (mapSet sid p parts) sid).map (fun e => (target, e.socketId)) =
      (mapKeys parts).map (fun t => (target, t)) := by
  rw [rosterOf_fresh h p, List.map_map, mapKeys, List.map_map]
  exact List.map_congr_left (fun a _ => rfl)

theorem world_inv (jps : List JoinOp) (hnd : (sids jps).Nodup) :
    (∀ rk, pids (runWorld jps).server rk = memOf jps rk) ∧
    (∀ x, x ∈ mapKeys (runWorld jps).clients → x ∈ sids jps) ∧
    (runWorld jps).offers = specOffers jps ∧
    WFState (runWorld jps).server := by
  induction jps using List.reverseRecOn with
  | nil =>
    refine ⟨?_, ?_, rfl, wf_init⟩
    · intro rk
      simp [runWorld, World.init, pids, ServerState.init, mapFind?, mapKeys, memOf, sids]
    · intro x hx
      simp [runWorld, World.init, mapKeys] at hx
  | append_singleton l jp ih =>
    have hndl : (sids l).Nodup := by
      rw [sids_append] at hnd
      exact (List.nodup_append.mp hnd).1
    have hfresh : jp.sid ∉ sids l := by
      rw [sids_append] at hnd
      intro hmem
      exact (List.nodup_append.mp hnd).2.2 hmem (by simp [sids])
    obtain ⟨hpids, hcli, hoff, hwf⟩ := ih hndl
    have hrun : runWorld (l ++ [jp]) = worldJoin (runWorld l) jp := by
      simp [runWorld, List.foldl_append]
    have hwf' : WFState (worldJoin (runWorld l) jp).server :=
      wf_joinRoom hwf jp.sid jp.roomSlug jp.sessionId jp.oderId jp.odername jp.isHost
    rcases hfind : mapFind? (mkRoomKey jp.roomSlug jp.sessionId)
        (runWorld l).server.rooms with _ | room0
    · -- the room did not exist yet: the joiner is alone, no offer is sent
      have hmemOf : memOf l jp.key = [] := by
        have h1 := hpids jp.key
        rw [show JoinOp.key jp = mkRoomKey jp.roomSlug jp.sessionId from rfl,
          pids_of_none hfind] at h1
        exact h1.symm
      have hjoin := @joinRoom_absent (runWorld l).server jp.sid jp.roomSlug jp.sessionId
        jp.oderId jp.odername jp.isHost hfind
      have houts : (joinRoom (runWorld l).server jp.sid jp.roomSlug jp.sessionId
          jp.oderId jp.odername jp.isHost).2 =
          [SOut.userJoined (mkRoomKey jp.roomSlug jp.sessionId) jp.sid jp.sid
            jp.oderId jp.odername jp.isHost,
           SOut.existingParticipants jp.sid []] := by
        rw [hjoin]
      have hfindNew : mapFind? (mkRoomKey jp.roomSlug jp.sessionId)
          (joinRoom (runWorld l).server jp.sid jp.roomSlug jp.sessionId
            jp.oderId jp.odername jp.isHost).1.rooms =
          some ⟨jp.sessionId, [(jp.sid, ⟨jp.sid, jp.oderId, jp.odername, jp.isHost,
            true, true⟩)]⟩ := by
        rw [hjoin]
        exact mapFind?_set_self _ _ _
      have hpidsNew : pids (joinRoom (runWorld l).server jp.sid jp.roomSlug jp.sessionId
          jp.oderId jp.odername jp.isHost).1 (mkRoomKey jp.roomSlug jp.sessionId) =
          [jp.sid] := by
        rw [pids_of_find hfindNew]
        simp [mapKeys]
      have hbt : broadcastTargets (joinRoom (runWorld l).server jp.sid jp.roomSlug
          jp.sessionId jp.oderId jp.odername jp.isHost).1
          (mkRoomKey jp.roomSlug jp.sessionId) jp.sid = [] := by
        rw [broadcastTargets, hpidsNew]
        simp
      have hworld : worldJoin (runWorld l) jp =
          ⟨(joinRoom (runWorld l).server jp.sid jp.roomSlug jp.sessionId jp.oderId
              jp.odername jp.isHost).1,
           mapSet jp.sid (onExistingParticipants
             (getClient (runWorld l).clients jp.sid) []).1 (runWorld l).clients,
           (runWorld l).offers⟩ := by
        simp only [worldJoin, houts, List.foldl_cons, List.foldl_nil, applySOut, hbt]
        simp [onExistingParticipants]
      refine ⟨?_, ?_, ?_, hrun ▸ hwf'⟩
      · intro rk
        rw [hrun, hworld]
        show pids (joinRoom (runWorld l).server jp.sid jp.roomSlug jp.sessionId
          jp.oderId jp.odername jp.isHost).1 rk = _
        rw [memOf_append]
        by_cases hk : jp.key = rk
        · rw [← hk]
          rw [show JoinOp.key jp = mkRoomKey jp.roomSlug jp.sessionId from rfl]
          rw [hpidsNew]
          rw [show JoinOp.key jp = mkRoomKey jp.roomSlug jp.sessionId from rfl] at hmemOf
          simp [hmemOf]
        · have hk' : mkRoomKey jp.roomSlug jp.sessionId ≠ rk := hk
          have hsame : mapFind? rk (joinRoom (runWorld l).server jp.sid jp.roomSlug
              jp.sessionId jp.oderId jp.odername jp.isHost).1.rooms =
              mapFind? rk (runWorld l).server.rooms := by
            rw [hjoin]
            exact mapFind?_set_ne _ _ hk'
          rw [if_neg hk, List.append_nil, pids_ext hsame]
          exact hpids rk
      · intro x hx
        rw [hrun, hworld] at hx
        rcases (mem_mapKeys_set _ _ _ _).mp hx with h | h
        · subst h
          rw [sids_append]
          simp [sids]
        · rw [sids_append]
          exact List.mem_append.mpr (Or.inl (hcli x h))
      · rw [hrun, hworld]
        show (runWorld l).offers = _
        rw [specOffers_append, hmemOf]
        simp [hoff]
    · -- the room already existed: the joiner offers to every present member
      have hpartsKeys : mapKeys room0.participants = memOf l jp.key := by
        have h1 := hpids jp.key
        rw [show JoinOp.key jp = mkRoomKey jp.roomSlug jp.sessionId from rfl,
          pids_of_find hfind] at h1
        exact h1
      have hsidfresh : jp.sid ∉ mapKeys room0.participants := by
        rw [hpartsKeys]
        intro hmem
        exact hfresh (memOf_subset hmem)
      have hjoin := @joinRoom_present (runWorld l).server jp.sid jp.roomSlug jp.sessionId
        jp.oderId jp.odername jp.isHost room0 hfind
      have houts : (joinRoom (runWorld l).server jp.sid jp.roomSlug jp.sessionId
          jp.oderId jp.odername jp.isHost).2 =
          [SOut.userJoined (mkRoomKey jp.roomSlug jp.sessionId) jp.sid jp.sid
            jp.oderId jp.odername jp.isHost,
           SOut.existingParticipants jp.sid
             (rosterOf (mapSet jp.sid ⟨jp.sid, jp.oderId, jp.odername, jp.isHost,
               true, true⟩ room0.participants) jp.sid)] := by
        rw [hjoin]
      have hfindNew : mapFind? (mkRoomKey jp.roomSlug jp.sessionId)
          (joinRoom (runWorld l).server jp.sid jp.roomSlug jp.sessionId
            jp.oderId jp.odername jp.isHost).1.rooms =
          some ⟨room0.sessionId, mapSet jp.sid ⟨jp.sid, jp.oderId, jp.odername,
            jp.isHost, true, true⟩ room0.participants⟩ := by
        rw [hjoin]
        exact mapFind?_set_self _ _ _
      have hpidsNew : pids (joinRoom (runWorld l).server jp.sid jp.roomSlug jp.sessionId
          jp.oderId jp.odername jp.isHost).1 (mkRoomKey jp.roomSlug jp.sessionId) =
          mapKeys room0.participants ++ [jp.sid] := by
        rw [pids_of_find hfindNew]
        exact mapKeys_set_fresh _ hsidfresh
      have hbt : broadcastTargets (joinRoom (runWorld l).server jp.sid jp.roomSlug
          jp.sessionId jp.oderId jp.odername jp.isHost).1
          (mkRoomKey jp.roomSlug jp.sessionId) jp.sid = mapKeys room0.participants := by
        rw [broadcastTargets, hpidsNew, List.filter_append]
        have h1 : (mapKeys room0.participants).filter (fun x => x ≠ jp.sid) =
            mapKeys room0.participants := by
          rw [List.filter_eq_self]
          intro b hb
          simp only [ne_eq, decide_not, Bool.not_eq_eq_eq_not, Bool.not_true,
            decide_eq_false_iff_not]
          rintro rfl
          exact hsidfresh hb
        rw [h1]
        simp
      have hworld : worldJoin (runWorld l) jp =
          ⟨(joinRoom (runWorld l).server jp.sid jp.roomSlug jp.sessionId jp.oderId
              jp.odername jp.isHost).1,
           mapSet jp.sid (onExistingParticipants
             (getClient ((mapKeys room0.participants).foldl (fun cls r =>
               mapSet r (onUserJoined (getClient cls r) jp.sid jp.oderId jp.odername
                 jp.isHost).1 cls) (runWorld l).clients) jp.sid)
             (rosterOf (mapSet jp.sid ⟨jp.sid, jp.oderId, jp.odername, jp.isHost,
               true, true⟩ room0.participants) jp.sid)).1
             ((mapKeys room0.participants).foldl (fun cls r =>
               mapSet r (onUserJoined (getClient cls r) jp.sid jp.oderId jp.odername
                 jp.isHost).1 cls) (runWorld l).clients),
           (runWorld l).offers ++
             ((onExistingParticipants
               (getClient ((mapKeys room0.participants).foldl (fun cls r =>
                 mapSet r (onUserJoined (getClient cls r) jp.sid jp.oderId jp.odername
                   jp.isHost).1 cls) (runWorld l).clients) jp.sid)
               (rosterOf (mapSet jp.sid ⟨jp.sid, jp.oderId, jp.odername, jp.isHost,
                 true, true⟩ room0.participants) jp.sid)).2.filterMap (fun m =>
                   match m with
                   | COut.offerMsg t _ => some (jp.sid, t)
                   | _ => none))⟩ := by
        simp only [worldJoin, houts, List.foldl_cons, List.foldl_nil, applySOut, hbt]
      have hC1sid : mapFind? jp.sid ((mapKeys room0.participants).foldl (fun cls r =>
          mapSet r (onUserJoined (getClient cls r) jp.sid jp.oderId jp.odername
            jp.isHost).1 cls) (runWorld l).clients) = none := by
        rcases ho : mapFind? jp.sid ((mapKeys room0.participants).foldl (fun cls r =>
          mapSet r (onUserJoined (getClient cls r) jp.sid jp.oderId jp.odername
            jp.isHost).1 cls) (runWorld l).clients) with _ | c
        · rfl
        · have hmemk : jp.sid ∈ mapKeys ((mapKeys room0.participants).foldl (fun cls r =>
              mapSet r (onUserJoined (getClient cls r) jp.sid jp.oderId jp.odername
                jp.isHost).1 cls) (runWorld l).clients) :=
            (mapFind?_isSome_iff_mem _ _).mp (by simp [ho])
          rcases mem_mapKeys_foldl_set _ _ _ _ hmemk with h | h
          · exact absurd (hcli jp.sid h) hfresh
          · exact absurd h hsidfresh
      have hgc : getClient ((mapKeys room0.participants).foldl (fun cls r =>
          mapSet r (onUserJoined (getClient cls r) jp.sid jp.oderId jp.odername
            jp.isHost).1 cls) (runWorld l).clients) jp.sid = newClient camTracks := by
        rw [getClient, hC1sid]
        rfl
      have hoffersNew : ((onExistingParticipants
          (getClient ((mapKeys room0.participants).foldl (fun cls r =>
            mapSet r (onUserJoined (getClient cls r) jp.sid jp.oderId jp.odername
              jp.isHost).1 cls) (runWorld l).clients) jp.sid)
          (rosterOf (mapSet jp.sid ⟨jp.sid, jp.oderId, jp.odername, jp.isHost,
            true, true⟩ room0.participants) jp.sid)).2.filterMap (fun m =>
              match m with
              | COut.offerMsg t _ => some (jp.sid, t)
              | _ => none)) =
          (memOf l jp.key).map (fun t => (jp.sid, t)) := by
        rw [hgc, onExistingParticipants_outs rfl, filterMap_offerMsg,
          roster_offer_pairs hsidfresh _ jp.sid, hpartsKeys]
      refine ⟨?_, ?_, ?_, hrun ▸ hwf'⟩
      · intro rk
        rw [hrun, hworld]
        show pids (joinRoom (runWorld l).server jp.sid jp.roomSlug jp.sessionId
          jp.oderId jp.odername jp.isHost).1 rk = _
        rw [memOf_append]
        by_cases hk : jp.key = rk
        · rw [← hk]
          rw [show JoinOp.key jp = mkRoomKey jp.roomSlug jp.sessionId from rfl]
          rw [hpidsNew]
          rw [hpartsKeys]
          simp
          rfl
        · have hk' : mkRoomKey jp.roomSlug jp.sessionId ≠ rk := hk
          have hsame : mapFind? rk (joinRoom (runWorld l).server jp.sid jp.roomSlug
              jp.sessionId jp.oderId jp.odername jp.isHost).1.rooms =
              mapFind? rk (runWorld l).server.rooms := by
            rw [hjoin]
            exact mapFind?_set_ne _ _ hk'
          rw [if_neg hk, List.append_nil, pids_ext hsame]
          exact hpids rk
      · intro x hx
        rw [hrun, hworld] at hx
        rcases (mem_mapKeys_set _ _ _ _).mp hx with h | h
        · subst h
          rw [sids_append]
          simp [sids]
        · rcases mem_mapKeys_foldl_set _ _ _ _ h with h' | h'
          · rw [sids_append]
            exact List.mem_append.mpr (Or.inl (hcli x h'))
          · rw [sids_append]
            rw [hpartsKeys] at h'
            exact List.mem_append.mpr (Or.inl (memOf_subset h'))
      · rw [hrun, hworld]
        show (runWorld l).offers ++ _ = _
        rw [hoffersNew, specOffers_append, hoff]



/-! ## Claim theorems -/

/-- C5: the claim says an ICE candidate arriving before the peer's connection
is ready must be buffered and retried; the client handler instead does
nothing when the peer entry is missing or its connection is absent — the
candidate is dropped and stored nowhere (the state is unchanged). -/
theorem claim_C5_ice_candidate_dropped :
    onIceCandidate (newClient camTracks) "S" "cand" = (newClient camTracks, []) ∧
    onIceCandidate ⟨[("S", ⟨"S", 7, "peer", false, true, true, none, none⟩)],
        some camTracks, none⟩ "S" "cand" =
      (⟨[("S", ⟨"S", 7, "peer", false, true, true, none, none⟩)],
        some camTracks, none⟩, []) :=
  ⟨rfl, rfl⟩

/-- C7: a `media-state-change` from a connection unknown to the registry (no
stored room key, vanished room, or no participant entry) is a no-op with no
broadcast; from a known participant it updates exactly that participant's
`hasVideo`/`hasAudio` and broadcasts `participant-media-changed` to every
other member of the room and only to them. -/
theorem claim_C7_media_state (st : ServerState) (sid : String) (v a : Bool) :
    (mapFind? sid st.socketRoomKey = none → mediaStateChange st sid v a = (st, [])) ∧
    (∀ roomKey, mapFind? sid st.socketRoomKey = some roomKey →
      mapFind? roomKey st.rooms = none → mediaStateChange st sid v a = (st, [])) ∧
    (∀ roomKey room, mapFind? sid st.socketRoomKey = some roomKey →
      mapFind? roomKey st.rooms = some room →
      mapFind? sid room.participants = none → mediaStateChange st sid v a = (st, [])) ∧
    (∀ roomKey room p, mapFind? sid st.socketRoomKey = some roomKey →
      mapFind? roomKey st.rooms = some room →
      mapFind? sid room.participants = some p →
      mediaStateChange st sid v a =
        ({ st with rooms := mapSet roomKey ⟨room.sessionId,
            mapSet sid ⟨p.socketId, p.oderId, p.odername, p.isHost, v, a⟩
              room.participants⟩ st.rooms },
         [SOut.mediaChanged roomKey sid sid v a]) ∧
      broadcastTargets (mediaStateChange st sid v a).1 roomKey sid =
        (pids st roomKey).filter (fun x => x ≠ sid)) := by
  refine ⟨?_, ?_, ?_, ?_⟩
  · intro h
    simp [mediaStateChange, h]
  · intro rk h1 h2
    simp [mediaStateChange, h1, h2]
  · intro rk room h1 h2 h3
    simp [mediaStateChange, h1, h2, h3]
  · intro rk room p h1 h2 h3
    have heq : mediaStateChange st sid v a =
        ({ st with rooms := mapSet rk ⟨room.sessionId,
            mapSet sid ⟨p.socketId, p.oderId, p.odername, p.isHost, v, a⟩
              room.participants⟩ st.rooms },
         [SOut.mediaChanged rk sid sid v a]) := by
      simp [mediaStateChange, h1, h2, h3]
    refine ⟨heq, ?_⟩
    have hsidmem : sid ∈ mapKeys room.participants :=
      (mapFind?_isSome_iff_mem sid room.participants).mp (by simp [h3])
    have hfind' : mapFind? rk (mediaStateChange st sid v a).1.rooms =
        some ⟨room.sessionId, mapSet sid ⟨p.socketId, p.oderId, p.odername, p.isHost,
          v, a⟩ room.participants⟩ := by
      rw [heq]
      exact mapFind?_set_self _ _ _
    rw [broadcastTargets, pids_of_find hfind', pids_of_find h2]
    rw [show mapKeys (mapSet sid (⟨p.socketId, p.oderId, p.odername, p.isHost,
      v, a⟩ : Participant) room.participants) = mapKeys room.participants from
      mapKeys_set_of_mem _ hsidmem]

/-- C7 witness: a registered participant's media update at a concrete state. -/
theorem claim_C7_media_state_witness :
    (mediaStateChange (run [Event.join "A" "r" 1 1 "a" true]) "A" false true).2 =
      [SOut.mediaChanged "r-1" "A" "A" false true] := by
  have h := (claim_C7_media_state (run [Event.join "A" "r" 1 1 "a" true])
    "A" false true).2.2.2 "r-1" ⟨1, [("A", ⟨"A", 1, "a", true, true, true⟩)]⟩
    ⟨"A", 1, "a", true, true, true⟩ (by decide) (by decide) (by decide)
  rw [h.1]

/-- C8: each of the three handshake relays leaves the registry unchanged and
emits exactly one message carrying the named target, the sender's id and the
payload verbatim (in particular nothing is sent back to the sender); delivery
of a direct emit to a target that is no longer connected is silently empty. -/
theorem claim_C8_verbatim_relay (st : ServerState) (sid target payload : String) :
    handleOffer st sid target payload = (st, [SOut.offer target sid payload]) ∧
    handleAnswer st sid target payload = (st, [SOut.answer target sid payload]) ∧
    handleIceCandidate st sid target payload =
      (st, [SOut.iceCandidate target sid payload]) ∧
    (∀ connected m, target ∉ connected → emitTo connected target m = []) := by
  refine ⟨rfl, rfl, rfl, ?_⟩
  intro connected m h
  simp [emitTo, h]

/-- C8 witness: a concrete relayed offer, dropped for a gone target. -/
theorem claim_C8_verbatim_relay_witness :
    handleOffer ServerState.init "A" "B" "sdp" =
      (ServerState.init, [SOut.offer "B" "A" "sdp"]) ∧
    emitTo ["C"] "B" (SOut.offer "B" "A" "sdp") = [] :=
  ⟨(claim_C8_verbatim_relay ServerState.init "A" "B" "sdp").1,
   (claim_C8_verbatim_relay ServerState.init "A" "B" "sdp").2.2.2 ["C"]
     (SOut.offer "B" "A" "sdp") (by decide)⟩

/-- C10: every join (a re-join included) stores the participant with
`hasVideo = true` and `hasAudio = true`; concretely, a participant that
reported media off and then re-joined is handed to a later joiner with both
flags true. -/
theorem claim_C10_join_resets_media (st : ServerState) (sid roomSlug : String)
    (sessionId oderId : Int) (odername : String) (isHost : Bool) :
    ((mapFind? (mkRoomKey roomSlug sessionId)
        (joinRoom st sid roomSlug sessionId oderId odername isHost).1.rooms).map
      (fun room => mapFind? sid room.participants)) =
      some (some ⟨sid, oderId, odername, isHost, true, true⟩) ∧
    existingReply (joinRoom (run [Event.join "A" "r" 1 1 "a" true,
      Event.mediaStateChange "A" false false,
      Event.join "A" "r" 1 1 "a" true]) "B" "r" 1 2 "b" false).2 =
      [⟨"A", 1, "a", true, true, true⟩] := by
  constructor
  · rcases hfind : mapFind? (mkRoomKey roomSlug sessionId) st.rooms with _ | room
    · have h1 : mapFind? (mkRoomKey roomSlug sessionId)
          (joinRoom st sid roomSlug sessionId oderId odername isHost).1.rooms =
          some ⟨sessionId, [(sid, ⟨sid, oderId, odername, isHost, true, true⟩)]⟩ := by
        rw [joinRoom_absent oderId odername isHost hfind]
        exact mapFind?_set_self _ _ _
      rw [h1]
      simp [mapFind?]
    · have h1 : mapFind? (mkRoomKey roomSlug sessionId)
          (joinRoom st sid roomSlug sessionId oderId odername isHost).1.rooms =
          some ⟨room.sessionId, mapSet sid ⟨sid, oderId, odername, isHost, true, true⟩
            room.participants⟩ := by
        rw [joinRoom_present oderId odername isHost hfind]
        exact mapFind?_set_self _ _ _
      rw [h1]
      simp [mapFind?_set_self]
  · decide


theorem swapVideoTrack_signaling (vt? : Option Track) (p : RemotePeer) :
    (swapVideoTrack vt? p).connection.map PeerConnection.signaling =
      p.connection.map PeerConnection.signaling := by
  rcases hc : p.connection with _ | pc
  · simp [swapVideoTrack, hc]
  · rcases vt? with _ | vt
    · simp [swapVideoTrack, hc]
    · by_cases hs : (pc.senders.find? isVideoSender).isSome
      · simp [swapVideoTrack, hc, hs]
      · simp [swapVideoTrack, hc, hs]

theorem find_replaceFirstVideo {senders : List RTCSender} {vt : Track}
    (hvt : vt.kind = "video") (h : (senders.find? isVideoSender).isSome) :
    (replaceFirstVideo vt senders).find? isVideoSender =
      some { track := some vt } := by
  induction senders with
  | nil => simp [List.find?] at h
  | cons s rest ih =>
    by_cases hs : isVideoSender s
    · have hnew : isVideoSender { track := some vt } = true := by
        simp [isVideoSender, hvt]
      simp [replaceFirstVideo, hs, List.find?_cons, hnew]
    · have h' : (rest.find? isVideoSender).isSome := by
        rw [List.find?_cons_of_neg _ (by simpa using hs)] at h
        exact h
      simp only [replaceFirstVideo, hs, if_false, Bool.false_eq_true]
      rw [List.find?_cons_of_neg _ (by simpa using hs)]
      exact ih h'

/-- C9: starting or stopping screen share leaves the registry untouched (the
server handlers broadcast only), emits no offer or answer from the client
(only the share notification), keeps every peer connection's signaling state
unchanged, and replaces the outgoing video track in place on each peer
connection that has a video sender. -/
theorem claim_C9_track_swap (st : ServerState) (sid : String) (cs : ClientState)
    (screen : List Track) :
    (screenShareStarted st sid).1 = st ∧
    (screenShareStopped st sid).1 = st ∧
    (startScreenShare cs screen).2 = [COut.shareStartedMsg] ∧
    (stopScreenShare cs).2 = [COut.shareStoppedMsg] ∧
    ((startScreenShare cs screen).1.peers.map (fun e =>
        (e.1, e.2.connection.map PeerConnection.signaling)) =
      cs.peers.map (fun e => (e.1, e.2.connection.map PeerConnection.signaling))) ∧
    ((stopScreenShare cs).1.peers.map (fun e =>
        (e.1, e.2.connection.map PeerConnection.signaling)) =
      cs.peers.map (fun e => (e.1, e.2.connection.map PeerConnection.signaling))) ∧
    (∀ s p pc vt, mapFind? s cs.peers = some p → p.connection = some pc →
      firstVideoTrack screen = some vt →
      (pc.senders.find? isVideoSender).isSome →
      mapFind? s (startScreenShare cs screen).1.peers =
        some { p with connection := some { pc with
          senders := replaceFirstVideo vt pc.senders } } ∧
      (replaceFirstVideo vt pc.senders).find? isVideoSender =
        some { track := some vt } ∧
      ({ pc with senders := replaceFirstVideo vt pc.senders } :
        PeerConnection).signaling = pc.signaling) := by
  refine ⟨?_, ?_, rfl, rfl, ?_, ?_, ?_⟩
  · rcases h : mapFind? sid st.socketRoomKey with _ | rk <;>
      simp [screenShareStarted, h]
  · rcases h : mapFind? sid st.socketRoomKey with _ | rk <;>
      simp [screenShareStopped, h]
  · show (cs.peers.map (fun e =>
        (e.1, swapVideoTrack (firstVideoTrack screen) e.2))).map (fun e =>
        (e.1, e.2.connection.map PeerConnection.signaling)) = _
    rw [List.map_map]
    exact List.map_congr_left (fun e _ => by
      simp [Function.comp, swapVideoTrack_signaling])
  · rcases hls : cs.localStream with _ | stream
    · simp [stopScreenShare, hls]
    · simp only [stopScreenShare, hls]
      rw [List.map_map]
      exact List.map_congr_left (fun e _ => by
        simp [Function.comp, swapVideoTrack_signaling])
  · intro s p pc vt hfind hconn hfvt hsenders
    have hvt : vt.kind = "video" := by
      have := List.find?_some hfvt
      simpa using this
    refine ⟨?_, find_replaceFirstVideo hvt hsenders, rfl⟩
    have hmv : mapFind? s ((startScreenShare cs screen).1.peers) =
        (mapFind? s cs.peers).map (swapVideoTrack (firstVideoTrack screen)) :=
      mapFind?_map_value s _ cs.peers
    rw [hmv, hfind]
    show some (swapVideoTrack (firstVideoTrack screen) p) = _
    rw [hfvt]
    simp [swapVideoTrack, hconn, hsenders]

/-- C9 witness: a concrete peer with a camera video sender gets the screen
track swapped in while its signaling state stays `stable`. -/
theorem claim_C9_track_swap_witness :
    mapFind? "S" (startScreenShare
      ⟨[("S", ⟨"S", 7, "peer", false, true, true,
        some ⟨SignalingState.stable, [⟨some ⟨"video", "cam0"⟩⟩], none, []⟩, none⟩)],
        some camTracks, none⟩ [⟨"video", "scr0"⟩]).1.peers =
      some ⟨"S", 7, "peer", false, true, true,
        some ⟨SignalingState.stable, [⟨some ⟨"video", "scr0"⟩⟩], none, []⟩, none⟩ := by
  have h := (claim_C9_track_swap ServerState.init "x"
    ⟨[("S", ⟨"S", 7, "peer", false, true, true,
      some ⟨SignalingState.stable, [⟨some ⟨"video", "cam0"⟩⟩], none, []⟩, none⟩)],
      some camTracks, none⟩ [⟨"video", "scr0"⟩]).2.2.2.2.2.2 "S"
    ⟨"S", 7, "peer", false, true, true,
      some ⟨SignalingState.stable, [⟨some ⟨"video", "cam0"⟩⟩], none, []⟩, none⟩
    ⟨SignalingState.stable, [⟨some ⟨"video", "cam0"⟩⟩], none, []⟩
    ⟨"video", "scr0"⟩ rfl rfl rfl (by decide)
  exact h.1


/-- C1: over any single-room sequence of join/leave/disconnect operations,
the `existing-participants` roster returned to a fresh joiner names exactly
the connections that have joined and not since left or disconnected,
excluding the joiner itself. -/
theorem claim_C1_roster_correctness (roomSlug : String) (sessionId : Int)
    (ops : List ROp) (sid : String) (oderId : Int) (odername : String)
    (isHost : Bool) (x : String) :
    x ∈ (existingReply (joinRoom (runRoom roomSlug sessionId ops) sid roomSlug
        sessionId oderId odername isHost).2).map RosterEntry.socketId ↔
      (activeAfter x ops = true ∧ x ≠ sid) := by
  obtain ⟨hmem, hkey, hkeyOnly, hnd, hother, hrk⟩ := roomInv_runRoom roomSlug sessionId ops
  rw [activeAfter_eq]
  rcases hfind : mapFind? (mkRoomKey roomSlug sessionId)
      (runRoom roomSlug sessionId ops).rooms with _ | room
  · rw [joinRoom_absent oderId odername isHost hfind]
    have hfx : activeFrom (fun _ => false) ops x = false := by
      rcases hb : activeFrom (fun _ => false) ops x with _ | _
      · rfl
      · exact absurd ((hmem x).mpr hb) (by simp [pids_of_none hfind])
    simp [existingReply, hfx]
  · rw [joinRoom_present oderId odername isHost hfind]
    have hpk : x ∈ mapKeys room.participants ↔
        activeFrom (fun _ => false) ops x = true := by
      rw [← pids_of_find hfind]
      exact hmem x
    show x ∈ (existingReply [SOut.userJoined (mkRoomKey roomSlug sessionId) sid sid
        oderId odername isHost,
      SOut.existingParticipants sid (rosterOf (mapSet sid
        ⟨sid, oderId, odername, isHost, true, true⟩ room.participants) sid)]).map
        RosterEntry.socketId ↔ _
    rw [show existingReply [SOut.userJoined (mkRoomKey roomSlug sessionId) sid sid
        oderId odername isHost,
      SOut.existingParticipants sid (rosterOf (mapSet sid
        ⟨sid, oderId, odername, isHost, true, true⟩ room.participants) sid)] =
      rosterOf (mapSet sid ⟨sid, oderId, odername, isHost, true, true⟩
        room.participants) sid from rfl]
    rw [mem_rosterIds, mem_mapKeys_set]
    by_cases hx : x = sid
    · simp [hx]
    · simp [hx, hpk]

/-- C2 counterexample: a connection that joins a second room without leaving
the first is registered in two rooms at once, refuting cross-room
uniqueness of `connectionId`. -/
theorem claim_C2_counterexample :
    "A" ∈ pids (run [Event.join "A" "r" 1 1 "a" true,
        Event.join "A" "q" 1 1 "a" true]) "r-1" ∧
    "A" ∈ pids (run [Event.join "A" "r" 1 1 "a" true,
        Event.join "A" "q" 1 1 "a" true]) "q-1" ∧
    ("r-1" : String) ≠ "q-1" := by
  refine ⟨?_, ?_, ?_⟩ <;> decide

/-- C2 amended: within each room a connectionId keys at most one participant
entry, after any event sequence; and for sequences confined to one room key a
connectionId is in at most one room.  Cross-room uniqueness fails in general
(see the counterexample). -/
theorem claim_C2_single_membership :
    (∀ es rk room, mapFind? rk (run es).rooms = some room →
      (mapKeys room.participants).Nodup) ∧
    (∀ roomSlug sessionId ops sid,
      ((runRoom roomSlug sessionId ops).rooms.filter
        (fun e => sid ∈ mapKeys e.2.participants)).length ≤ 1) := by
  constructor
  · intro es rk room h
    exact ((wf_run es).2 rk room h).2
  · intro roomSlug sessionId ops sid
    obtain ⟨hmem, hkey, hkeyOnly, hnd, hother, hrk⟩ :=
      roomInv_runRoom roomSlug sessionId ops
    have hkeys : ∀ k, k ∈ mapKeys (runRoom roomSlug sessionId ops).rooms →
        k = mkRoomKey roomSlug sessionId := by
      intro k hkmem
      by_contra hne
      have hnone := hother k hne
      have hsome := (mapFind?_isSome_iff_mem k _).mpr hkmem
      rw [hnone] at hsome
      cases hsome
    have hlen : ∀ (l : List (String × Room)),
        (∀ k, k ∈ mapKeys l → k = mkRoomKey roomSlug sessionId) →
        (mapKeys l).Nodup → l.length ≤ 1 := by
      intro l hk hnd2
      rcases l with _ | ⟨e, rest⟩
      · simp
      · rcases rest with _ | ⟨e2, rest2⟩
        · simp
        · exfalso
          have h1 : e.1 = mkRoomKey roomSlug sessionId := hk e.1 (by simp [mapKeys])
          have h2 : e2.1 = mkRoomKey roomSlug sessionId := hk e2.1 (by simp [mapKeys])
          simp [mapKeys, h1, h2] at hnd2
    calc ((runRoom roomSlug sessionId ops).rooms.filter
        (fun e => sid ∈ mapKeys e.2.participants)).length
        ≤ (runRoom roomSlug sessionId ops).rooms.length :=
          List.length_filter_le _ _
      _ ≤ 1 := hlen _ hkeys hrk


/-- C3: in the composed system (signaling server plus one client per
connection), over any join-only trace with fresh connection ids, any two
connections that end up in the same room have exactly one offer logged for
the pair, sent by the later joiner (who discovered the other through the
`existing-participants` roster) to the earlier one; the `user-joined` side
never offers. -/
theorem claim_C3_glare_avoidance (jps : List JoinOp) (A B roomKey : String)
    (hnd : (sids jps).Nodup) (hAB : A ≠ B)
    (hA : A ∈ pids (runWorld jps).server roomKey)
    (hB : B ∈ pids (runWorld jps).server roomKey)
    (hord : (sids jps).indexOf A < (sids jps).indexOf B) :
    pairOffers A B (runWorld jps).offers = [(B, A)] := by
  obtain ⟨hpids, hcli, hoff, hwf⟩ := world_inv jps hnd
  rw [hoff]
  rw [hpids roomKey] at hA hB
  exact pairOffers_specOffers jps A B roomKey hnd hAB hA hB hord

/-- C3 witness: two concrete joins into one room produce exactly the single
offer from the second joiner to the first. -/
theorem claim_C3_glare_avoidance_witness :
    pairOffers "A" "B" (runWorld [⟨"A", "r", 1, 1, "a", true⟩,
      ⟨"B", "r", 1, 2, "b", false⟩]).offers = [("B", "A")] :=
  claim_C3_glare_avoidance [⟨"A", "r", 1, 1, "a", true⟩,
    ⟨"B", "r", 1, 2, "b", false⟩] "A" "B" "r-1" (by decide) (by decide)
    (by decide) (by decide) (by decide)

/-- C4 counterexample: after an explicit leave, a transport disconnect of the
same connection re-broadcasts `user-left` to the remaining member (the stored
room key is never cleared), so the two invocations are not equivalent to one. -/
theorem claim_C4_counterexample :
    (step (run [Event.join "A" "r" 1 1 "a" true, Event.join "B" "r" 1 2 "b" false,
      Event.leave "A"]) (Event.disconnect "A")).2 = [SOut.userLeft "r-1" "A" "A"] ∧
    broadcastTargets (step (run [Event.join "A" "r" 1 1 "a" true,
      Event.join "B" "r" 1 2 "b" false, Event.leave "A"])
      (Event.disconnect "A")).1 "r-1" "A" = ["B"] := by
  constructor <;> decide

/-- C4 amended: on any reachable state, a second leave/disconnect for the
same connection leaves the registry exactly as after the first; but when the
connection's room still exists (other members remain) the second invocation
broadcasts `user-left` again, and only when the room was deleted is it
silent. -/
theorem claim_C4_idempotent_leave (es : List Event) (sid : String) :
    (handleDisconnect (handleDisconnect (run es) sid).1 sid).1 =
      (handleDisconnect (run es) sid).1 ∧
    (∀ roomKey, mapFind? sid (run es).socketRoomKey = some roomKey →
      (mapFind? roomKey (handleDisconnect (run es) sid).1.rooms).isSome →
      (handleDisconnect (handleDisconnect (run es) sid).1 sid).2 =
        [SOut.userLeft roomKey sid sid]) ∧
    (∀ roomKey, mapFind? sid (run es).socketRoomKey = some roomKey →
      mapFind? roomKey (handleDisconnect (run es) sid).1.rooms = none →
      (handleDisconnect (handleDisconnect (run es) sid).1 sid).2 = []) := by
  obtain ⟨hknd, hroomwf⟩ := wf_run es
  rcases h1 : mapFind? sid (run es).socketRoomKey with _ | rk0
  · have hd1 : handleDisconnect (run es) sid = ((run es), []) :=
      handleDisconnect_noKey h1
    refine ⟨?_, ?_, ?_⟩
    · rw [hd1]
      show (handleDisconnect (run es) sid).1 = run es
      rw [hd1]
    · intro roomKey hk
      cases hk
    · intro roomKey hk
      cases hk
  · rcases h2 : mapFind? rk0 (run es).rooms with _ | room
    · have hd1 : handleDisconnect (run es) sid = ((run es), []) :=
        handleDisconnect_noRoom h1 h2
      refine ⟨?_, ?_, ?_⟩
      · rw [hd1]
        show (handleDisconnect (run es) sid).1 = run es
        rw [hd1]
      · intro roomKey hk hsome
        have hrk : roomKey = rk0 := (Option.some.inj hk).symm
        subst hrk
        have hsome2 : (mapFind? roomKey (run es).rooms).isSome := by
          rw [hd1] at hsome
          exact hsome
        rw [h2] at hsome2
        cases hsome2
      · intro roomKey hk hnone
        rw [hd1]
        show (handleDisconnect (run es) sid).2 = []
        rw [hd1]
    · have hd1 := handleDisconnect_found h1 h2
      have hndp : (mapKeys room.participants).Nodup := (hroomwf rk0 room h2).2
      by_cases hz : (mapErase sid room.participants).length = 0
      · have hd1' : handleDisconnect (run es) sid =
            ({ run es with rooms := mapErase rk0 (run es).rooms },
             [SOut.userLeft rk0 sid sid]) := by
          rw [hd1, if_pos hz]
        have hsk1 : mapFind? sid
            ({ run es with rooms := mapErase rk0 (run es).rooms } :
              ServerState).socketRoomKey = some rk0 := h1
        have hro1 : mapFind? rk0
            ({ run es with rooms := mapErase rk0 (run es).rooms } :
              ServerState).rooms = none := by
          show mapFind? rk0 (mapErase rk0 (run es).rooms) = none
          exact mapFind?_eq_none_of_not_mem
            (fun hm => ((mem_mapKeys_erase hknd).mp hm).2 rfl)
        have hd2 := handleDisconnect_noRoom hsk1 hro1
        refine ⟨?_, ?_, ?_⟩
        · rw [hd1']
          show (handleDisconnect ({ run es with
            rooms := mapErase rk0 (run es).rooms } : ServerState) sid).1 = _
          rw [hd2]
        · intro roomKey hk hsome
          have hrk : roomKey = rk0 := (Option.some.inj hk).symm
          subst hrk
          have hsome2 : (mapFind? roomKey
              ({ run es with rooms := mapErase roomKey (run es).rooms } :
                ServerState).rooms).isSome := by
            rw [hd1'] at hsome
            exact hsome
          rw [hro1] at hsome2
          cases hsome2
        · intro roomKey hk hnone
          rw [hd1']
          show (handleDisconnect ({ run es with
            rooms := mapErase rk0 (run es).rooms } : ServerState) sid).2 = []
          rw [hd2]
      · have hd1' : handleDisconnect (run es) sid =
            ({ run es with rooms := mapSet rk0 ⟨room.sessionId,
              mapErase sid room.participants⟩ (run es).rooms },
             [SOut.userLeft rk0 sid sid]) := by
          rw [hd1, if_neg hz]
        have hsk1 : mapFind? sid
            ({ run es with rooms := mapSet rk0 ⟨room.sessionId,
              mapErase sid room.participants⟩ (run es).rooms } :
              ServerState).socketRoomKey = some rk0 := h1
        have hro1 : mapFind? rk0
            ({ run es with rooms := mapSet rk0 ⟨room.sessionId,
              mapErase sid room.participants⟩ (run es).rooms } :
              ServerState).rooms =
            some ⟨room.sessionId, mapErase sid room.participants⟩ := by
          show mapFind? rk0 (mapSet rk0 _ _) = _
          exact mapFind?_set_self _ _ _
        have hd2 := handleDisconnect_found hsk1 hro1
        have hsidout : sid ∉ mapKeys (mapErase sid room.participants) := by
          intro hm
          exact ((mem_mapKeys_erase hndp).mp hm).2 rfl
        have hparts2 : mapErase sid (⟨room.sessionId,
            mapErase sid room.participants⟩ : Room).participants =
            mapErase sid room.participants :=
          mapErase_of_not_mem hsidout
        have hcond : ¬(mapErase sid (⟨room.sessionId,
            mapErase sid room.participants⟩ : Room).participants).length = 0 := by
          rw [hparts2]
          exact hz
        refine ⟨?_, ?_, ?_⟩
        · rw [hd1']
          show (handleDisconnect
            ({ run es with rooms := mapSet rk0 ⟨room.sessionId,
              mapErase sid room.participants⟩ (run es).rooms } :
              ServerState) sid).1 = _
          rw [hd2, if_neg hcond, hparts2]
          show ({ run es with rooms := mapSet rk0 ⟨room.sessionId,
            mapErase sid room.participants⟩ (mapSet rk0 ⟨room.sessionId,
              mapErase sid room.participants⟩ (run es).rooms) } : ServerState) = _
          rw [mapSet_mapSet_self]
        · intro roomKey hk hsome
          have hrk : roomKey = rk0 := (Option.some.inj hk).symm
          subst hrk
          rw [hd1']
          show (handleDisconnect
            ({ run es with rooms := mapSet roomKey ⟨room.sessionId,
              mapErase sid room.participants⟩ (run es).rooms } :
              ServerState) sid).2 = _
          rw [hd2]
        · intro roomKey hk hnone
          have hrk : roomKey = rk0 := (Option.some.inj hk).symm
          subst hrk
          have hnone2 : mapFind? roomKey
              ({ run es with rooms := mapSet roomKey ⟨room.sessionId,
                mapErase sid room.participants⟩ (run es).rooms } :
                ServerState).rooms = none := by
            rw [hd1'] at hnone
            exact hnone
          rw [hro1] at hnone2
          cases hnone2

/-- C4 witness: registry-state idempotence and the duplicate broadcast at a
concrete trace with a remaining member. -/
theorem claim_C4_idempotent_leave_witness :
    (handleDisconnect (handleDisconnect (run [Event.join "A" "r" 1 1 "a" true,
      Event.join "B" "r" 1 2 "b" false, Event.leave "A"]) "A").1 "A").2 =
      [SOut.userLeft "r-1" "A" "A"] :=
  (claim_C4_idempotent_leave [Event.join "A" "r" 1 1 "a" true,
    Event.join "B" "r" 1 2 "b" false, Event.leave "A"] "A").2.1 "r-1"
    (by decide) (by decide)

/-- C6: no reachable registry retains an empty room; a join whose room key is
absent gets an empty roster; and a leave/disconnect that removes a room's
only participant deletes the room. -/
theorem claim_C6_room_gc :
    (∀ es rk room, mapFind? rk (run es).rooms = some room →
      room.participants ≠ []) ∧
    (∀ st sid roomSlug sessionId oderId odername isHost,
      mapFind? (mkRoomKey roomSlug sessionId) st.rooms = none →
      existingReply (joinRoom st sid roomSlug sessionId oderId odername
        isHost).2 = []) ∧
    (∀ es sid roomKey room,
      mapFind? sid (run es).socketRoomKey = some roomKey →
      mapFind? roomKey (run es).rooms = some room →
      mapKeys room.participants = [sid] →
      mapFind? roomKey (handleDisconnect (run es) sid).1.rooms = none) := by
  refine ⟨?_, ?_, ?_⟩
  · intro es rk room h
    exact ((wf_run es).2 rk room h).1
  · intro st sid roomSlug sessionId oderId odername isHost h
    rw [joinRoom_absent oderId odername isHost h]
    rfl
  · intro es sid roomKey room h1 h2 hkeys
    have hz : (mapErase sid room.participants).length = 0 := by
      rcases hp : room.participants with _ | ⟨e, rest⟩
      · simp [mapErase]
      · obtain ⟨a, b⟩ := e
        rw [hp] at hkeys
        simp only [mapKeys, List.map_cons] at hkeys
        injection hkeys with ha htl
        have hrest : rest = [] := by
          rcases rest with _ | ⟨x, xs⟩
          · rfl
          · simp at htl
        subst hrest
        subst ha
        simp [mapErase]
    rw [handleDisconnect_found h1 h2, if_pos hz]
    show mapFind? roomKey (mapErase roomKey (run es).rooms) = none
    exact mapFind?_eq_none_of_not_mem
      (fun hm => ((mem_mapKeys_erase (wf_run es).1).mp hm).2 rfl)

/-- C6 witness: an empty roster on a fresh key, and room deletion when the
only member disconnects. -/
theorem claim_C6_room_gc_witness :
    existingReply (joinRoom ServerState.init "A" "x" 5 1 "a" true).2 = [] ∧
    mapFind? "r-1" (handleDisconnect (run [Event.join "A" "r" 1 1 "a" true])
      "A").1.rooms = none :=
  ⟨claim_C6_room_gc.2.1 ServerState.init "A" "x" 5 1 "a" true rfl,
   claim_C6_room_gc.2.2 [Event.join "A" "r" 1 1 "a" true] "A" "r-1"
     ⟨1, [("A", ⟨"A", 1, "a", true, true, true⟩)]⟩ (by decide) (by decide)
     (by decide)⟩

/-- C2 witness: per-room uniqueness at a concrete reachable room, and the
single-room bound at a concrete trace. -/
theorem claim_C2_single_membership_witness :
    (mapKeys ((⟨1, [("A", (⟨"A", 1, "a", true, true, true⟩ : Participant))]⟩ :
      Room)).participants).Nodup ∧
    ((runRoom "r" 1 [ROp.join "A" 1 "a" true]).rooms.filter
      (fun e => "A" ∈ mapKeys e.2.participants)).length ≤ 1 :=
  ⟨claim_C2_single_membership.1 [Event.join "A" "r" 1 1 "a" true] "r-1" _
     (by decide),
   claim_C2_single_membership.2 "r" 1 [ROp.join "A" 1 "a" true] "A"⟩

end MathTutor
